import Mathlib

/-!
Verification of the notion-py local record cache and transaction subsystem.

This file shallowly embeds the Python source of the repository (notion/store.py,
notion/client.py, notion/operations.py, notion/utils.py, notion/monitor.py) into
Lean.  JSON-like Python values become the inductive type JValue; Python dicts are
embedded as insertion-ordered association lists; Python exceptions become an
explicit error type threaded through results.  Network activity (requests posts)
is out of scope of the embedded code and is represented by an explicit Remote
oracle describing the responses together with a trace of the endpoint calls made.
-/

namespace NotionPy

/-- Key of a Python dict entry or a Python list index, as they occur in record
value trees and operation paths.  JSON object keys are strings; local operation
replay can also introduce integer keys (Python dicts distinguish 0 from "0"). -/
inductive JKey where
  | s (v : String)
  | i (n : Int)
deriving DecidableEq

/-- JSON-like Python value: None, bool, int, str, list, dict.  Dicts are embedded
as insertion-ordered association lists, matching Python dict iteration order. -/
inductive JValue where
  | null
  | bool (b : Bool)
  | num (n : Int)
  | str (s : String)
  | arr (elems : List JValue)
  | obj (fields : List (JKey × JValue))

mutual

/-- Decidable structural equality on JValue (the derive handler does not
support this nested inductive). -/
def jdecEq : (a b : JValue) → Decidable (a = b)
  | .null, .null => isTrue rfl
  | .bool a, .bool b =>
    if h : a = b then isTrue (by rw [h]) else isFalse (fun hh => by cases hh; exact h rfl)
  | .num a, .num b =>
    if h : a = b then isTrue (by rw [h]) else isFalse (fun hh => by cases hh; exact h rfl)
  | .str a, .str b =>
    if h : a = b then isTrue (by rw [h]) else isFalse (fun hh => by cases hh; exact h rfl)
  | .arr xs, .arr ys =>
    match jdecEqList xs ys with
    | isTrue h => isTrue (by rw [h])
    | isFalse h => isFalse (fun hh => by cases hh; exact h rfl)
  | .obj f, .obj g =>
    match jdecEqFields f g with
    | isTrue h => isTrue (by rw [h])
    | isFalse h => isFalse (fun hh => by cases hh; exact h rfl)
  | .null, .bool _ => isFalse (fun hh => by cases hh)
  | .null, .num _ => isFalse (fun hh => by cases hh)
  | .null, .str _ => isFalse (fun hh => by cases hh)
  | .null, .arr _ => isFalse (fun hh => by cases hh)
  | .null, .obj _ => isFalse (fun hh => by cases hh)
  | .bool _, .null => isFalse (fun hh => by cases hh)
  | .bool _, .num _ => isFalse (fun hh => by cases hh)
  | .bool _, .str _ => isFalse (fun hh => by cases hh)
  | .bool _, .arr _ => isFalse (fun hh => by cases hh)
  | .bool _, .obj _ => isFalse (fun hh => by cases hh)
  | .num _, .null => isFalse (fun hh => by cases hh)
  | .num _, .bool _ => isFalse (fun hh => by cases hh)
  | .num _, .str _ => isFalse (fun hh => by cases hh)
  | .num _, .arr _ => isFalse (fun hh => by cases hh)
  | .num _, .obj _ => isFalse (fun hh => by cases hh)
  | .str _, .null => isFalse (fun hh => by cases hh)
  | .str _, .bool _ => isFalse (fun hh => by cases hh)
  | .str _, .num _ => isFalse (fun hh => by cases hh)
  | .str _, .arr _ => isFalse (fun hh => by cases hh)
  | .str _, .obj _ => isFalse (fun hh => by cases hh)
  | .arr _, .null => isFalse (fun hh => by cases hh)
  | .arr _, .bool _ => isFalse (fun hh => by cases hh)
  | .arr _, .num _ => isFalse (fun hh => by cases hh)
  | .arr _, .str _ => isFalse (fun hh => by cases hh)
  | .arr _, .obj _ => isFalse (fun hh => by cases hh)
  | .obj _, .null => isFalse (fun hh => by cases hh)
  | .obj _, .bool _ => isFalse (fun hh => by cases hh)
  | .obj _, .num _ => isFalse (fun hh => by cases hh)
  | .obj _, .str _ => isFalse (fun hh => by cases hh)
  | .obj _, .arr _ => isFalse (fun hh => by cases hh)

/-- Decidable equality on lists of values. -/
def jdecEqList : (xs ys : List JValue) → Decidable (xs = ys)
  | [], [] => isTrue rfl
  | x :: xs, y :: ys =>
    match jdecEq x y, jdecEqList xs ys with
    | isTrue h1, isTrue h2 => isTrue (by rw [h1, h2])
    | isFalse h1, _ => isFalse (fun hh => by cases hh; exact h1 rfl)
    | _, isFalse h2 => isFalse (fun hh => by cases hh; exact h2 rfl)
  | [], _ :: _ => isFalse (fun hh => by cases hh)
  | _ :: _, [] => isFalse (fun hh => by cases hh)

/-- Decidable equality on association lists. -/
def jdecEqFields : (f g : List (JKey × JValue)) → Decidable (f = g)
  | [], [] => isTrue rfl
  | (k, v) :: f, (k', v') :: g =>
    if hk : k = k' then
      match jdecEq v v', jdecEqFields f g with
      | isTrue h1, isTrue h2 => isTrue (by rw [hk, h1, h2])
      | isFalse h1, _ => isFalse (fun hh => by cases hh; exact h1 rfl)
      | _, isFalse h2 => isFalse (fun hh => by cases hh; exact h2 rfl)
    else isFalse (fun hh => by cases hh; exact hk rfl)
  | [], _ :: _ => isFalse (fun hh => by cases hh)
  | _ :: _, [] => isFalse (fun hh => by cases hh)

end

instance : DecidableEq JValue := jdecEq

/-- Python truthiness of an embedded value: None, False, 0, empty string, empty
list and empty dict are falsy, everything else truthy. -/
def jTruthy : JValue → Bool
  | .null => false
  | .bool b => b
  | .num n => n ≠ 0
  | .str s => s ≠ ""
  | .arr xs => !xs.isEmpty
  | .obj f => !f.isEmpty

/-- Python dict read d[k] on the association-list embedding: first entry with the
given key (a dict holds each key at most once, so first = only). -/
def lookupKey (k : JKey) : List (JKey × JValue) → Option JValue
  | [] => none
  | (k', v) :: rest => if k' = k then some v else lookupKey k rest

/-- Python dict write d[k] = v: replace the value at an existing key in place
(keeping its position), else append the new entry, matching dict insertion
order semantics. -/
def setKey (k : JKey) (v : JValue) : List (JKey × JValue) → List (JKey × JValue)
  | [] => [(k, v)]
  | (k', v') :: rest => if k' = k then (k', v) :: rest else (k', v') :: setKey k v rest

/-- Python dict.update(other): write each entry of the argument into the
receiver in iteration order. -/
def dictUpdate (f args : List (JKey × JValue)) : List (JKey × JValue) :=
  args.foldl (fun acc p => setKey p.1 p.2 acc) f

/-- String-keyed association-list read, for the store's table and id maps. -/
def alookup {α : Type} (k : String) : List (String × α) → Option α
  | [] => none
  | (k', v) :: rest => if k' = k then some v else alookup k rest

/-- String-keyed association-list write, replacing in place or appending. -/
def aset {α : Type} (k : String) (v : α) : List (String × α) → List (String × α)
  | [] => [(k, v)]
  | (k', v') :: rest => if k' = k then (k', v) :: rest else (k', v') :: aset k v rest

/-- Python exceptions that the embedded code can raise, plus the HTTP error
raised by NotionClient.post on a failed request (client.py lines 286-304). -/
inductive Err where
  | invalidNotionIdentifier (input : String)
  | httpError
  | typeError
  | keyError
  | indexError
  | valueError
  | assertionError
  | attributeError
deriving DecidableEq

/-- Python list read xs[n] with negative-index support: IndexError outside
[-len, len). -/
def pyListGet (xs : List JValue) (n : Int) : Except Err JValue :=
  if h : 0 ≤ n ∧ n < xs.length then
    .ok (xs.get ⟨n.toNat, by omega⟩)
  else if h2 : -(xs.length : Int) ≤ n ∧ n < 0 then
    .ok (xs.get ⟨(n + xs.length).toNat, by omega⟩)
  else .error .indexError

/-- Python list write xs[n] = v with negative-index support: IndexError outside
[-len, len). -/
def pyListSet (xs : List JValue) (n : Int) (v : JValue) : Except Err (List JValue) :=
  if 0 ≤ n ∧ n < xs.length then
    .ok (xs.set n.toNat v)
  else if -(xs.length : Int) ≤ n ∧ n < 0 then
    .ok (xs.set (n + xs.length).toNat v)
  else .error .indexError

/-- Python list.insert(n, v): index clamped into [0, len], negative indices
counted from the end. -/
def pyListInsert (n : Int) (v : JValue) (xs : List JValue) : List JValue :=
  let idx : Nat := if n < 0 then (max 0 (n + xs.length)).toNat else min n.toNat xs.length
  xs.take idx ++ v :: xs.drop idx

/-- Python list.index(v): position of the first occurrence, ValueError when
absent. -/
def listIndex (xs : List JValue) (v : JValue) : Except Err Nat :=
  if v ∈ xs then .ok (xs.indexOf v) else .error .valueError

/-- Python list.remove(v) with the ValueError swallowed, as in the listRemove
branch of run_local_operation (store.py lines 401-405): drop the first
occurrence, no-op when absent. -/
def removeFirstJ (v : JValue) : List JValue → List JValue
  | [] => []
  | x :: xs => if x = v then xs else x :: removeFirstJ v xs

/-- Record of one diff produced by the dictdiffer.diff dependency: a changed
leaf, or one added or removed key (diff is invoked with expand=True, so adds and
removes are reported one key at a time).  The path is the node list; the add and
remove forms carry the parent node plus the affected key, as dictdiffer does. -/
inductive DiffOp where
  | change (path : List JKey) (oldVal newVal : JValue)
  | add (path : List JKey) (key : JKey) (val : JValue)
  | remove (path : List JKey) (key : JKey) (val : JValue)
deriving DecidableEq

/-- Ignore-list test of dictdiffer.diff: a node is skipped when its dotted path
is in the ignore collection.  The store always passes a flat list of plain field
names (no dots), so only single-component string nodes can match. -/
def dottedIgnored (ignore : List String) (node : List JKey) : Bool :=
  match node with
  | [JKey.s k] => ignore.contains k
  | _ => false

/-- Index-value pairs of a list starting from a given index, used for the
added and removed tail segments of a list comparison. -/
def enumFromInt (i : Int) : List JValue → List (Int × JValue)
  | [] => []
  | x :: xs => (i, x) :: enumFromInt (i + 1) xs

mutual

/-- Embedding of dictdiffer.diff(first, second, ignore=..., expand=True), the
external dependency called by RecordStore._update_record (store.py lines
204-211).  Two dicts: recurse on common keys (in first-dict order, skipping
ignored nodes), then report each added key (second-dict order), then each
removed key.  Two lists: recurse on the common prefix by index, then report
added tail indices in order, then removed tail indices in reverse.  Any other
combination: a single change entry when the values are unequal.  The numeric
tolerance option and the Python cross-type equality True == 1 are not modelled
(record values compared at one path have one JSON type). -/
def jdiff (ignore : List String) (node : List JKey) : JValue → JValue → List DiffOp
  | .obj f1, .obj f2 =>
      jdiffInter ignore node f1 f2
        ++ ((f2.filter (fun p => (lookupKey p.1 f1).isNone)).filterMap
          (fun p => if dottedIgnored ignore (node ++ [p.1]) then none
                    else some (.add node p.1 p.2)))
        ++ ((f1.filter (fun p => (lookupKey p.1 f2).isNone)).filterMap
          (fun p => if dottedIgnored ignore (node ++ [p.1]) then none
                    else some (.remove node p.1 p.2)))
  | .arr xs, .arr ys =>
      jdiffZip ignore node 0 xs ys
        ++ ((enumFromInt (xs.length : Int) (ys.drop xs.length)).filterMap
          (fun p => if dottedIgnored ignore (node ++ [JKey.i p.1]) then none
                    else some (.add node (.i p.1) p.2)))
        ++ (((enumFromInt (ys.length : Int) (xs.drop ys.length)).reverse).filterMap
          (fun p => if dottedIgnored ignore (node ++ [JKey.i p.1]) then none
                    else some (.remove node (.i p.1) p.2)))
  | a, b => if a = b then [] else [.change node a b]

/-- Common-key recursion of jdiff over the entries of the first dict. -/
def jdiffInter (ignore : List String) (node : List JKey) : List (JKey × JValue) → List (JKey × JValue) → List DiffOp
  | [], _ => []
  | (k, v) :: rest, f2 =>
      (match lookupKey k f2 with
       | some w => if dottedIgnored ignore (node ++ [k]) then [] else jdiff ignore (node ++ [k]) v w
       | none => []) ++ jdiffInter ignore node rest f2

/-- Common-prefix recursion of jdiff over two lists, carrying the index. -/
def jdiffZip (ignore : List String) (node : List JKey) : Int → List JValue → List JValue → List DiffOp
  | _, [], _ => []
  | _, _ :: _, [] => []
  | i, x :: xs, y :: ys =>
      (if dottedIgnored ignore (node ++ [JKey.i i]) then [] else jdiff ignore (node ++ [JKey.i i]) x y)
        ++ jdiffZip ignore node (i + 1) xs ys

end

/-- The hardcoded volatile-field ignore list passed by _update_record to the
diff (store.py line 208). -/
def ignoreList : List String := ["version", "last_edited_time", "last_edited_by"]

/-! Character-level embeddings of the Python string operations used by
utils.extract_id and the uuid.UUID constructor.  Strings are handled through
their character lists so that the idempotence argument can be carried out. -/

/-- Fueled worker for splitOnL; the fuel is at least the input length plus one,
and each step consumes at least one character when the separator is nonempty. -/
def splitOnAux (sep : List Char) : Nat → List Char → List Char → List (List Char)
  | 0, acc, rest => [acc.reverse ++ rest]
  | fuel + 1, acc, rest =>
    match rest with
    | [] => [acc.reverse]
    | c :: cs =>
      if sep.isPrefixOf rest then
        acc.reverse :: splitOnAux sep fuel [] (rest.drop sep.length)
      else
        splitOnAux sep fuel (c :: acc) cs

/-- Python str.split(sep) for a nonempty separator: non-overlapping left-to-right
splitting, always returning at least one piece. -/
def splitOnL (sep cs : List Char) : List (List Char) :=
  if sep.isEmpty then [cs] else splitOnAux sep (cs.length + 1) [] cs

/-- Fueled worker for removeAll. -/
def removeAllAux (pat : List Char) : Nat → List Char → List Char
  | 0, rest => rest
  | fuel + 1, rest =>
    match rest with
    | [] => []
    | c :: cs =>
      if pat.isPrefixOf rest then removeAllAux pat fuel (rest.drop pat.length)
      else c :: removeAllAux pat fuel cs

/-- Python str.replace(pat, "") for a nonempty pattern: delete every
non-overlapping occurrence, scanning left to right. -/
def removeAll (pat cs : List Char) : List Char :=
  if pat.isEmpty then cs else removeAllAux pat (cs.length + 1) cs

/-- Python str.strip(set): drop every leading and trailing character belonging
to the set. -/
def stripChars (cset cs : List Char) : List Char :=
  ((cs.dropWhile (fun c => cset.contains c)).reverse.dropWhile (fun c => cset.contains c)).reverse

/-- Hexadecimal digit test matching what int(s, 16) accepts per character, by
ASCII code: 0-9 (48-57), a-f (97-102), A-F (65-70).  The exotic forms int also
tolerates, such as a 0x prefix or underscores, are not modelled; uuid hex
strings contain plain digits. -/
def isHexDigitChar (c : Char) : Bool :=
  (48 ≤ c.toNat && c.toNat ≤ 57) || (97 ≤ c.toNat && c.toNat ≤ 102)
    || (65 ≤ c.toNat && c.toNat ≤ 70)

/-- Lowercase hexadecimal digit test, satisfied by every character of a
canonical uuid string's hex part: 0-9 (48-57) or a-f (97-102). -/
def isLowerHexChar (c : Char) : Bool :=
  (48 ≤ c.toNat && c.toNat ≤ 57) || (97 ≤ c.toNat && c.toNat ≤ 102)

/-- Lowercasing of the six uppercase hex digits A (65) through F (70), the
effect str(uuid.UUID(...)) has on the accepted hex characters. -/
def toLowerHexChar (c : Char) : Char :=
  if c.toNat = 65 then 'a' else if c.toNat = 66 then 'b' else if c.toNat = 67 then 'c'
  else if c.toNat = 68 then 'd' else if c.toNat = 69 then 'e'
  else if c.toNat = 70 then 'f' else c

/-- The two brace characters stripped by the uuid.UUID constructor. -/
def bracesChars : List Char := [Char.ofNat 123, Char.ofNat 125]

/-- Hex-normalization pipeline of Python's uuid.UUID(hex) constructor: delete
every occurrence of "urn:" and of "uuid:", strip surrounding braces, delete
dashes. -/
def uuidNormHex (cs : List Char) : List Char :=
  removeAll (['-']) (stripChars bracesChars (removeAll ("uuid:".data) (removeAll ("urn:".data) cs)))

/-- Embedding of the accepting part of Python's uuid.UUID(hex) constructor:
normalize with uuidNormHex and require exactly 32 hex digits; the resulting
canonical hex digits are the lowercased input digits (str formats the 128-bit
value in lowercase). -/
def uuidParseChars (cs : List Char) : Option (List Char) :=
  if (uuidNormHex cs).length = 32 && (uuidNormHex cs).all isHexDigitChar then
    some ((uuidNormHex cs).map toLowerHexChar)
  else none

/-- Canonical 8-4-4-4-12 dashed rendering of 32 hex digits, the str() form of a
uuid.UUID value. -/
def uuidFormatChars (h : List Char) : List Char :=
  h.take 8 ++ '-' :: ((h.drop 8).take 4) ++ '-' :: ((h.drop 12).take 4)
    ++ '-' :: ((h.drop 16).take 4) ++ '-' :: (h.drop 20)

/-- Characters of BASE_URL (settings.py line 4). -/
def baseUrlChars : List Char := "https://www.notion.so/".data

/-- URL-reduction chain of utils.extract_id (utils.py lines 27-34): an input
starting with BASE_URL is reduced by the split chain — last piece after "#",
last after "/", last after "&p=", first before "?", last after "-"; anything
else passes through. -/
def extractIdUrlTail (cs : List Char) : List Char :=
  if baseUrlChars.isPrefixOf cs then
    (splitOnL (['-'])
      ((splitOnL (['?'])
        ((splitOnL ("&p=".data)
          ((splitOnL (['/'])
            ((splitOnL (['#']) cs).getLastD [])).getLastD [])).getLastD [])).headD [])).getLastD []
  else cs

/-- Character-level utils.extract_id (utils.py lines 19-38): reduce a Notion
URL to its id-bearing tail, then the result must parse as a uuid and is
rendered canonically; on failure the original input is reported. -/
def extractIdChars (cs : List Char) : Except (List Char) (List Char) :=
  match uuidParseChars (extractIdUrlTail cs) with
  | some h => .ok (uuidFormatChars h)
  | none => .error cs

/-- utils.extract_id on Lean strings, raising InvalidNotionIdentifier with the
original input on failure. -/
def extract_id (s : String) : Except Err String :=
  match extractIdChars s.data with
  | .ok l => .ok (String.mk l)
  | .error _ => .error (.invalidNotionIdentifier s)

/-! Embedding of utils.get_by_path and the operation path model. -/

/-- Digits-to-number accumulator for pyStrToInt. -/
def digitsToNat (ds : List Char) : Nat :=
  ds.foldl (fun n c => n * 10 + (c.toNat - 48)) 0

/-- Python int(str): an optional sign followed by decimal digits (the
whitespace and underscore tolerance of int is not modelled; the path components
converted here are plain digit strings). -/
def pyStrToInt (s : String) : Option Int :=
  match s.data with
  | [] => none
  | '-' :: ds => if !ds.isEmpty && ds.all Char.isDigit then some (-(digitsToNat ds : Int)) else none
  | '+' :: ds => if !ds.isEmpty && ds.all Char.isDigit then some ((digitsToNat ds : Int)) else none
  | ds => if ds.all Char.isDigit then some ((digitsToNat ds : Int)) else none

/-- Python string indexing s[n] with negative indices, yielding a one-character
string; IndexError outside [-len, len). -/
def pyStrGet (s : String) (n : Int) : Except Err String :=
  let cs := s.data
  if h : 0 ≤ n ∧ n < cs.length then
    .ok (String.mk [cs.get ⟨n.toNat, by omega⟩])
  else if h2 : -(cs.length : Int) ≤ n ∧ n < 0 then
    .ok (String.mk [cs.get ⟨(n + cs.length).toNat, by omega⟩])
  else .error .indexError

/-- Path argument as Python receives it: either a dot-delimited string or a
list of keys (strings, or integers for list indices). -/
inductive PathArg where
  | str (s : String)
  | list (ks : List JKey)

/-- Normalization applied by build_operation (operations.py lines 10-11) and by
get_by_path (utils.py lines 93-94): a string path is split on dots into string
components, a list path is taken as is. -/
def pathArgKeys : PathArg → List JKey
  | .str s => (splitOnL (['.']) s.data).map (fun cs => JKey.s (String.mk cs))
  | .list ks => ks

/-- Key loop of get_by_path (utils.py lines 96-107).  On a list the key is
coerced with int(key) — whose ValueError is not among the caught exception
types and so propagates — while KeyError, TypeError and IndexError abort the
walk and yield the default. -/
def getByPathLoop (dflt : JValue) : List JKey → JValue → Except Err JValue
  | [], v => .ok v
  | key :: rest, v =>
    match v with
    | .arr xs =>
      let conv : Except Err Int :=
        match key with
        | .i n => .ok n
        | .s s => match pyStrToInt s with | some n => .ok n | none => .error .valueError
      match conv with
      | .error e => .error e
      | .ok n =>
        match pyListGet xs n with
        | .ok v' => getByPathLoop dflt rest v'
        | .error _ => .ok dflt
    | .obj f =>
      match lookupKey key f with
      | some v' => getByPathLoop dflt rest v'
      | none => .ok dflt
    | .str s =>
      match key with
      | .i n =>
        match pyStrGet s n with
        | .ok c => getByPathLoop dflt rest (.str c)
        | .error _ => .ok dflt
      | .s _ => .ok dflt
    | _ => .ok dflt

/-- utils.get_by_path(path, obj, default): normalize the path, then walk it,
returning the default on any caught lookup failure. -/
def get_by_path (path : PathArg) (obj : JValue) (dflt : JValue) : Except Err JValue :=
  getByPathLoop dflt (pathArgKeys path) obj

/-! Embedding of the Operation Builder (operations.py). -/

/-- The five operation commands interpreted by run_local_operation. -/
inductive Command where
  | set
  | update
  | listAfter
  | listBefore
  | listRemove
deriving DecidableEq

/-- Substring test "list" in command, deciding the default created for missing
intermediate path segments (store.py line 375). -/
def commandHasList : Command → Bool
  | .listAfter => true
  | .listBefore => true
  | .listRemove => true
  | .set => false
  | .update => false

/-- A normalized operation as built by build_operation (operations.py line 13). -/
structure Operation where
  id : String
  path : List JKey
  args : JValue
  command : Command
  table : String
deriving DecidableEq

/-- operations.build_operation(id, path, args, command="set", table="block"):
normalizes a dot-delimited string path into a list and packs the fields. -/
def build_operation (id : String) (path : PathArg) (args : JValue)
    (command : Command := .set) (table : String := "block") : Operation :=
  { id := id, path := pathArgKeys path, args := args, command := command, table := table }

/-- operations.operation_update_last_edited(user_id, block_id): the synthetic
metadata-stamping operation; now() is the caller-supplied millisecond clock. -/
def operation_update_last_edited (user_id block_id : String) (timeMs : Int) : Operation :=
  { id := block_id
    path := []
    args := .obj [(.s "last_edited_by", .str user_id), (.s "last_edited_time", .num timeMs)]
    command := .update
    table := "block" }

/-! Embedding of the local replay interpreter (store.py lines 363-407). -/

/-- Command dispatch of run_local_operation once the descent loop has stopped,
with ref the reached node and path the remaining components ([k] or [] for a
set, [] otherwise).  A set or update on a non-dict and a listAfter or
listBefore on a non-list fail the isinstance assertions; listRemove has no
assertion, so a non-list target raises AttributeError from the missing remove
method; argument dict lookups raise KeyError when "id" is absent, and
list.index raises ValueError when the anchor is absent, in the evaluation
order of the source lines. -/
def applyCmd (command : Command) (args : JValue) (path : List JKey) (ref : JValue) : Except Err JValue :=
  match command with
  | .update =>
    match ref with
    | .obj f =>
      match args with
      | .obj g => .ok (.obj (dictUpdate f g))
      | _ => .error .typeError
    | _ => .error .assertionError
  | .set =>
    match ref with
    | .obj f =>
      match path with
      | k :: _ => .ok (.obj (setKey k args f))
      | [] =>
        match args with
        | .obj g => .ok (.obj (dictUpdate [] g))
        | _ => .error .typeError
    | _ => .error .assertionError
  | .listAfter =>
    match ref with
    | .arr xs =>
      match args with
      | .obj g =>
        match lookupKey (.s "after") g with
        | some av =>
          match listIndex xs av with
          | .error e => .error e
          | .ok i =>
            match lookupKey (.s "id") g with
            | some idv => .ok (.arr (pyListInsert ((i : Int) + 1) idv xs))
            | none => .error .keyError
        | none =>
          match lookupKey (.s "id") g with
          | some idv => .ok (.arr (xs ++ [idv]))
          | none => .error .keyError
      | _ => .error .typeError
    | _ => .error .assertionError
  | .listBefore =>
    match ref with
    | .arr xs =>
      match args with
      | .obj g =>
        match lookupKey (.s "before") g with
        | some bv =>
          match listIndex xs bv with
          | .error e => .error e
          | .ok i =>
            match lookupKey (.s "id") g with
            | some idv => .ok (.arr (pyListInsert ((i : Int)) idv xs))
            | none => .error .keyError
        | none =>
          match lookupKey (.s "id") g with
          | some idv => .ok (.arr (pyListInsert 0 idv xs))
          | none => .error .keyError
      | _ => .error .typeError
    | _ => .error .assertionError
  | .listRemove =>
    match ref with
    | .arr xs =>
      match args with
      | .obj g =>
        match lookupKey (.s "id") g with
        | some idv => .ok (.arr (removeFirstJ idv xs))
        | none => .error .keyError
      | _ => .error .typeError
    | _ => .error .attributeError

/-- Descent loop of run_local_operation (store.py lines 371-376), rebuilt
functionally: while more than one component remains — or any component remains
and the command is not a set — pop the next component; a missing component
(Python: comp not in ref) is first created as an empty list when the command
name contains "list", else as an empty dict, and the descent then proceeds
into the created entry (functionally: the recursion result replaces it).  On a
list,
membership is Python value membership of the integer, creation is index
assignment (IndexError out of range), and descending indexes by position; a
string component on a list and any component on a scalar raise TypeError, as
the source's container operations do. -/
def runPath (command : Command) (args : JValue) : List JKey → JValue → Except Err JValue
  | [], ref => applyCmd command args [] ref
  | comp :: rest, ref =>
    if rest.isEmpty && command = .set then applyCmd command args [comp] ref
    else
      match ref with
      | .obj f =>
        match lookupKey comp f with
        | some child =>
          match runPath command args rest child with
          | .ok child' => .ok (.obj (setKey comp child' f))
          | .error e => .error e
        | none =>
          match runPath command args rest (if commandHasList command then .arr [] else .obj []) with
          | .ok child' => .ok (.obj (setKey comp child'
              (setKey comp (if commandHasList command then .arr [] else .obj []) f)))
          | .error e => .error e
      | .arr xs =>
        match comp with
        | .s _ => .error .typeError
        | .i n =>
          let step : Except Err (List JValue) :=
            if xs.contains (JValue.num n) then .ok xs
            else pyListSet xs n (if commandHasList command then .arr [] else .obj [])
          match step with
          | .error e => .error e
          | .ok xs1 =>
            match pyListGet xs1 n with
            | .error e => .error e
            | .ok child =>
              match runPath command args rest child with
              | .ok child' => (pyListSet xs1 n child').map .arr
              | .error e => .error e
      | _ => .error .typeError

/-! Embedding of the Record Store (store.py).  The on-disk cache writes
(_save_cache and _load_cache) are filesystem effects outside the embedded
state and are not modelled; the mutex discipline is likewise out of scope of
this sequential embedding. -/

/-- Registered callback.  The source Callback object also carries the callable,
the owning record and extra keyword arguments, and fires on a daemon thread
with trimmed kwargs (store.py lines 27-65); registration identity and removal
work through callback_id alone (Callback.__eq__, lines 67-73), which is all the
store state needs. -/
structure Callback where
  callback_id : String
deriving DecidableEq

/-- Argument of remove_callbacks: a string matches by callback_id prefix, a
Callback by callback_id equality (Callback.__eq__). -/
inductive CbSel where
  | strSel (s : String)
  | cbSel (c : Callback)

/-- Callback.__eq__(item, sel): startswith for a string argument, callback_id
equality for a Callback argument. -/
def cbMatches (cb : Callback) : CbSel → Bool
  | .strSel s => s.data.isPrefixOf cb.callback_id.data
  | .cbSel c => cb.callback_id = c.callback_id

/-- The loop `while sel in callbacks: callbacks.remove(sel)` of remove_callbacks
(store.py lines 112-113): each pass removes the first matching element, so the
loop removes every matching callback and keeps the rest in order. -/
def removeMatching (sel : CbSel) : List Callback → List Callback
  | [] => []
  | cb :: rest => if cbMatches cb sel then removeMatching sel rest
                  else cb :: removeMatching sel rest

/-- One fired callback invocation: _trigger_callbacks calls the callback with
the difference and the old and new values (store.py lines 169-171). -/
structure Fired where
  table : String
  id : String
  callback_id : String
  difference : List DiffOp
  old_val : JValue
  new_val : JValue
deriving DecidableEq

/-- Network calls the store and client can make, recorded as a trace. -/
inductive Call where
  | getRecordValues (requests : List (String × String))
  | loadPageChunk (pageId : String)
  | submitTransaction (operations : List Operation)
deriving DecidableEq

/-- A recordMap as returned by loadPageChunk and friends:
table → id → optional value and role. -/
abbrev RecordMap := List (String × List (String × (Option JValue × Option String)))

/-- Oracle for the remote service: the responses the server would give, plus
whether the submitTransaction post succeeds.  The transport itself is the
out-of-scope request capability. -/
structure Remote where
  recordValues : String → String → Option JValue × Option String
  pageChunk : String → RecordMap
  submitOk : Bool

/-- State of the RecordStore: the value and role caches, the two deferred
refresh queues, and the callback registry, all keyed the way the source's
defaultdicts are. -/
structure RecordStore where
  values : List (String × List (String × JValue))
  role : List (String × List (String × String))
  records_to_refresh : List (String × List String)
  pages_to_refresh : List String
  callbacks : List (String × List (String × List Callback))
deriving DecidableEq

/-- RecordStore._get(table, id): the cached value, or Missing (here: none). -/
def RecordStore.getValue (s : RecordStore) (table id : String) : Option JValue :=
  (alookup table s.values).bind (alookup id)

/-- Write one cached value, creating the table map on demand as the source's
defaultdict does. -/
def RecordStore.setValue (s : RecordStore) (table id : String) (v : JValue) : RecordStore :=
  { s with values := aset table (aset id v ((alookup table s.values).getD [])) s.values }

/-- Defaultdict access self._values[table][id] on a missing id inserts an empty
dict (store.py line 367 reads through the defaultdict before copying). -/
def RecordStore.ensureEntry (s : RecordStore) (table id : String) : RecordStore :=
  if (s.getValue table id).isSome then s else s.setValue table id (.obj [])

/-- The callback list registered for a record, empty when none. -/
def RecordStore.getCallbacks (s : RecordStore) (table id : String) : List Callback :=
  ((alookup table s.callbacks).bind (alookup id)).getD []

/-- Replace the callback list registered for a record. -/
def RecordStore.setCallbacks (s : RecordStore) (table id : String) (l : List Callback) : RecordStore :=
  { s with callbacks := aset table (aset id l ((alookup table s.callbacks).getD [])) s.callbacks }

/-- RecordStore.remove_callbacks(table, id, sel) (store.py lines 104-113):
None returns immediately; otherwise every callback matching the selector under
Callback.__eq__ is removed. -/
def RecordStore.remove_callbacks (s : RecordStore) (table id : String) (sel : Option CbSel) : RecordStore :=
  match sel with
  | none => s
  | some sel' => s.setCallbacks table id (removeMatching sel' (s.getCallbacks table id))

/-- RecordStore._trigger_callbacks (store.py lines 169-171): call every
registered callback with the difference and both snapshots. -/
def RecordStore.trigger_callbacks (s : RecordStore) (table id : String)
    (difference : List DiffOp) (old_val new_val : JValue) : List Fired :=
  (s.getCallbacks table id).map
    (fun cb => ⟨table, id, cb.callback_id, difference, old_val, new_val⟩)

/-- RecordStore._update_record(table, id, value, role) (store.py lines
190-220): a truthy role is stored; a truthy value is diffed against the old
cached value (empty dict when absent) under the volatile-field ignore list,
then stored; callbacks fire only when there was a truthy previous value and
the difference is non-empty. -/
def RecordStore.update_record (s : RecordStore) (table id : String)
    (value : Option JValue) (role : Option String) : RecordStore × List Fired :=
  let s1 : RecordStore :=
    match role with
    | some r => if r ≠ "" then
        { s with role := aset table (aset id r ((alookup table s.role).getD [])) s.role }
      else s
    | none => s
  match value with
  | some v =>
    if jTruthy v then
      let old_val := (s1.getValue table id).getD (.obj [])
      let difference := jdiff ignoreList [] old_val v
      let s2 := s1.setValue table id v
      let fired := if jTruthy old_val && !difference.isEmpty then
          s2.trigger_callbacks table id difference old_val v
        else []
      (s2, fired)
    else (s1, [])
  | none => (s1, [])

/-- RecordStore.store_recordmap (store.py lines 290-295): ingest every record
of a bulk response through _update_record. -/
def RecordStore.store_recordmap (s : RecordStore) (recordmap : RecordMap) : RecordStore × List Fired :=
  recordmap.foldl
    (fun acc tableRecords =>
      tableRecords.2.foldl
        (fun acc2 rec =>
          let r := acc2.1.update_record tableRecords.1 rec.1 rec.2.1 rec.2.2
          (r.1, acc2.2 ++ r.2))
        acc)
    (s, [])

/-- RecordStore.get_current_version(table, id) (store.py lines 265-270): the
version field of a truthy cached value, else -1.  The data-model invariant
makes version an integer; a cached non-object value or non-integer version
field (which the source would pass through to a failing comparison) is treated
as absent. -/
def RecordStore.get_current_version (s : RecordStore) (table id : String) : Int :=
  match s.getValue table id with
  | some (JValue.obj f) =>
    if jTruthy (.obj f) then
      match lookupKey (.s "version") f with
      | some (.num n) => n
      | _ => -1
    else -1
  | _ => -1

/-- Result of a store action: the new store, the trace of network calls
(including the attempted post when it fails), the callbacks fired, and the
exception propagating out, if any. -/
structure StepResult where
  store : RecordStore
  calls : List Call
  fired : List Fired
  err : Option Err

/-- A completed action with no effects beyond the store. -/
def StepResult.ok (s : RecordStore) : StepResult := ⟨s, [], [], none⟩

/-- Sequencing of store actions: a raised exception short-circuits, effects
accumulate in order. -/
def StepResult.seq (r : StepResult) (f : RecordStore → StepResult) : StepResult :=
  match r.err with
  | some _ => r
  | none =>
    let r2 := f r.store
    ⟨r2.store, r.calls ++ r2.calls, r.fired ++ r2.fired, r2.err⟩

/-- Ids argument for one table of call_get_record_values: an explicit id list
(a singular string id becomes a one-element list, store.py line 236), or True
meaning every id currently cached for the table. -/
inductive IdsArg where
  | ids (l : List String)
  | all

/-- Kwargs loop of call_get_record_values (store.py lines 231-246): inside a
transaction the ids are merged into the deferred-refresh queue (the source
dedups through set(), whose iteration order is unspecified; the embedding
dedups keeping first occurrences); outside, each id is normalized with
extract_id — which can raise — and appended to the request list. -/
def cgrvLoop (inTxn : Bool) (s : RecordStore) :
    List (String × IdsArg) → RecordStore × List (String × String) × Option Err
  | [] => (s, [], none)
  | (table, idsArg) :: rest =>
    let ids := match idsArg with
      | .all => ((alookup table s.values).getD []).map Prod.fst
      | .ids l => l
    if inTxn then
      let q := (((alookup table s.records_to_refresh).getD []) ++ ids).eraseDups
      cgrvLoop inTxn { s with records_to_refresh := aset table q s.records_to_refresh } rest
    else
      match ids.mapM extract_id with
      | .error e => (s, [], some e)
      | .ok normIds =>
        let r := cgrvLoop inTxn s rest
        (r.1, (normIds.map (fun nid => (table, nid))) ++ r.2.1, r.2.2)

/-- RecordStore.call_get_record_values (store.py lines 222-263): build the
request list (or defer into the refresh queue inside a transaction), post
getRecordValues when any requests remain, and ingest each result's value and
role through _update_record. -/
def RecordStore.call_get_record_values (s : RecordStore) (inTxn : Bool) (net : Remote)
    (kwargs : List (String × IdsArg)) : StepResult :=
  let r := cgrvLoop inTxn s kwargs
  match r.2.2 with
  | some e => ⟨r.1, [], [], some e⟩
  | none =>
    if r.2.1.isEmpty then .ok r.1
    else
      let ingest := r.2.1.foldl
        (fun acc req =>
          let resp := net.recordValues req.1 req.2
          let u := acc.1.update_record req.1 req.2 resp.1 resp.2
          (u.1, acc.2 ++ u.2))
        (r.1, [])
      ⟨ingest.1, [.getRecordValues r.2.1], ingest.2, none⟩

/-- RecordStore.call_load_page_chunk (store.py lines 272-288): defer into the
page-refresh queue inside a transaction, else post loadPageChunk and ingest the
returned recordMap. -/
def RecordStore.call_load_page_chunk (s : RecordStore) (inTxn : Bool) (net : Remote)
    (page_id : String) : StepResult :=
  if inTxn then
    .ok { s with pages_to_refresh := s.pages_to_refresh ++ [page_id] }
  else
    let r := s.store_recordmap (net.pageChunk page_id)
    ⟨r.1, [.loadPageChunk page_id], r.2, none⟩

/-- Page-queue drain of handle_post_transaction_refreshing: load each queued
page in order (the transaction is no longer open at this point). -/
def drainPages (net : Remote) (s : RecordStore) : List String → StepResult
  | [] => .ok s
  | p :: ps => (s.call_load_page_chunk false net p).seq (fun s2 => drainPages net s2 ps)

/-- RecordStore.handle_post_transaction_refreshing (store.py lines 346-353):
execute every queued page refresh and clear the page queue, then execute the
queued record refreshes and clear the record queue.  The queues are executed,
not discarded. -/
def RecordStore.handle_post_transaction_refreshing (s : RecordStore) (net : Remote) : StepResult :=
  (drainPages net s s.pages_to_refresh).seq (fun s1 =>
    let s2 : RecordStore := { s1 with pages_to_refresh := [] }
    (s2.call_get_record_values false net
        (s2.records_to_refresh.map (fun tl => (tl.1, IdsArg.ids tl.2)))).seq
      (fun s3 => .ok { s3 with records_to_refresh := [] }))

/-- RecordStore.run_local_operation (store.py lines 363-407): read the current
value through the defaultdict (inserting an empty dict for a missing record),
run the descent-and-command interpreter on a copy, and feed the result through
_update_record.  A raised exception propagates with no value stored (the
defaultdict insertion for a previously missing record remains, as in the
source). -/
def RecordStore.run_local_operation (s : RecordStore) (table id : String)
    (path : List JKey) (command : Command) (args : JValue) : RecordStore × List Fired × Option Err :=
  let s0 := s.ensureEntry table id
  let cur := (s0.getValue table id).getD (.obj [])
  match runPath command args path cur with
  | .error e => (s0, [], some e)
  | .ok newVal =>
    let r := s0.update_record table id (some newVal) none
    (r.1, r.2, none)

/-- RecordStore.run_local_operations (store.py lines 355-361): replay each
operation in order; a raised exception stops the loop, leaving the earlier
operations applied. -/
def RecordStore.run_local_operations (s : RecordStore) :
    List Operation → RecordStore × List Fired × Option Err
  | [] => (s, [], none)
  | op :: rest =>
    let r1 := s.run_local_operation op.table op.id op.path op.command op.args
    match r1.2.2 with
    | some e => (r1.1, r1.2.1, some e)
    | none =>
      let r2 := r1.1.run_local_operations rest
      (r2.1, r1.2.1 ++ r2.2.1, r2.2.2)

/-- Outcome of RecordStore.get: the returned value, the store afterwards, the
trace, the callbacks fired, and the exception, if one propagated. -/
structure GetResult where
  result : Option JValue
  store : RecordStore
  calls : List Call
  fired : List Fired
  err : Option Err
deriving DecidableEq

/-- Fetch performed by RecordStore.get on a cache miss or forced refresh
(store.py lines 183-186): a page chunk for the block table, a bulk
getRecordValues fetch otherwise. -/
def RecordStore.getFetch (s : RecordStore) (inTxn : Bool) (net : Remote)
    (table id : String) : StepResult :=
  if table = "block" then s.call_load_page_chunk inTxn net id
  else s.call_get_record_values inTxn net [(table, .ids [id])]

/-- RecordStore.get(table, id, force_refresh) (store.py lines 177-188):
normalize the id with extract_id, fetch when the record is absent or a refresh
is forced, then re-read the cache, mapping Missing to None. -/
def RecordStore.get (s : RecordStore) (inTxn : Bool) (net : Remote)
    (table rawId : String) (force_refresh : Bool) : GetResult :=
  match extract_id rawId with
  | .error e => ⟨none, s, [], [], some e⟩
  | .ok id =>
    if (s.getValue table id).isNone || force_refresh then
      match (s.getFetch inTxn net table id).err with
      | some e => ⟨none, (s.getFetch inTxn net table id).store,
          (s.getFetch inTxn net table id).calls, (s.getFetch inTxn net table id).fired, some e⟩
      | none => ⟨(s.getFetch inTxn net table id).store.getValue table id,
          (s.getFetch inTxn net table id).store, (s.getFetch inTxn net table id).calls,
          (s.getFetch inTxn net table id).fired, none⟩
    else ⟨s.getValue table id, s, [], [], none⟩

/-! Embedding of the Transaction Coordinator (client.py). -/

/-- Client-side shared state: the store and the ambient pending-operations
list whose presence is what in_transaction() tests (client.py lines 341-345).
The _pages_to_refresh and _blocks_to_refresh attributes Transaction.__enter__
also sets on the client are never read anywhere and are omitted. -/
structure ClientState where
  store : RecordStore
  txnOps : Option (List Operation)
deriving DecidableEq

/-- NotionClient.in_transaction(). -/
def ClientState.in_transaction (cs : ClientState) : Bool := cs.txnOps.isSome

/-- Outcome of a client action. -/
structure ClientResult where
  client : ClientState
  calls : List Call
  fired : List Fired
  err : Option Err

/-- NotionClient.submit_transaction(operations, update_last_edited=True)
(client.py lines 306-329): an empty batch returns; with update_last_edited the
batch is extended with one metadata-stamping operation per distinct
block-table id (the source collects them through set(), whose iteration order
is unspecified; the embedding keeps first-occurrence order); inside a
transaction the batch is appended to the pending list; otherwise the batch is
posted to submitTransaction and, only after the post returns, replayed against
the store with run_local_operations. -/
def submit_transaction (cs : ClientState) (net : Remote) (userId : String) (timeMs : Int)
    (operations : List Operation) (update_last_edited : Bool := true) : ClientResult :=
  if operations.isEmpty then ⟨cs, [], [], none⟩
  else
    let ops := if update_last_edited then
        let updated_blocks := ((operations.filter (fun op => op.table = "block")).map
          (fun op => op.id)).eraseDups
        operations ++ updated_blocks.map (fun bid => operation_update_last_edited userId bid timeMs)
      else operations
    match cs.txnOps with
    | some pend => ⟨{ cs with txnOps := some (pend ++ ops) }, [], [], none⟩
    | none =>
      if net.submitOk then
        let r := cs.store.run_local_operations ops
        ⟨{ cs with store := r.1 }, [.submitTransaction ops], r.2.1, r.2.2⟩
      else ⟨cs, [.submitTransaction ops], [], some .httpError⟩

/-- Transaction.__enter__ (client.py lines 452-461): a transaction already open
makes this scope a dummy; otherwise the pending-operations list is installed. -/
def transaction_enter (cs : ClientState) : ClientState × Bool :=
  if cs.txnOps.isSome then (cs, true) else ({ cs with txnOps := some [] }, false)

/-- Transaction.__exit__ (client.py lines 463-476): a dummy nested scope does
nothing; otherwise the pending list is removed from the client, the batch is
submitted only when no exception is in flight, and — whether or not an
exception aborted the scope — handle_post_transaction_refreshing drains the
deferred refresh queues, unless the submit itself raised first. -/
def transaction_exit (cs : ClientState) (net : Remote) (userId : String) (timeMs : Int)
    (is_dummy : Bool) (excRaised : Bool) : ClientResult :=
  if is_dummy then ⟨cs, [], [], none⟩
  else
    let operations := cs.txnOps.getD []
    let cs1 : ClientState := { cs with txnOps := none }
    let r1 := if excRaised then (⟨cs1, [], [], none⟩ : ClientResult)
              else submit_transaction cs1 net userId timeMs operations
    match r1.err with
    | some _ => r1
    | none =>
      let r2 := r1.client.store.handle_post_transaction_refreshing net
      ⟨{ r1.client with store := r2.store }, r1.calls ++ r2.calls, r1.fired ++ r2.fired, r2.err⟩

/-! Embedding of the Change Notification Listener decision (monitor.py).
The wire framing (session handshake, ping frames, regex key parsing) is out of
scope; an already-parsed version notification names the record and the pushed
version. -/

/-- A parsed "versions/id:table" notification event. -/
structure VersionNotification where
  table : String
  id : String
  value : Int

/-- Version-notification part of Monitor._refresh_updated_records (monitor.py
lines 149-166): a record is enqueued for refresh exactly when the pushed
version is strictly greater than the cached version; the enqueued keys are
collected in order (the source groups them by table before calling
refresh_records). -/
def refresh_updated_records (s : RecordStore) (events : List VersionNotification) :
    List (String × String) :=
  events.foldl
    (fun acc ev =>
      if ev.value > s.get_current_version ev.table ev.id then acc ++ [(ev.table, ev.id)]
      else acc)
    []

/-! Specification-side observation helpers, used only to state properties. -/

/-- Reader resolving a path through nested maps by exact key: the location a
path addresses when every component names an existing map entry. -/
def resolvesTo : List JKey → JValue → Option JValue
  | [], v => some v
  | k :: rest, .obj f =>
    match lookupKey k f with
    | some v' => resolvesTo rest v'
    | none => none
  | _ :: _, _ => none

/-- Rebuild of a value with the leaf at a map-key path replaced, the functional
image of the descent loop's in-place mutation along an existing path. -/
def setAtPath : List JKey → JValue → JValue → JValue
  | [], _, leaf => leaf
  | k :: rest, .obj f, leaf => .obj (setKey k (setAtPath rest ((lookupKey k f).getD .null) leaf) f)
  | _ :: _, v, _ => v

/-- Node path of a diff entry (the parent node for add and remove entries). -/
def DiffOp.path : DiffOp → List JKey
  | .change p _ _ => p
  | .add p _ _ => p
  | .remove p _ _ => p

/-- A diff entry names a top-level field when its path starts at that field, or
it adds or removes exactly that key at the root. -/
def namesField (k : String) : DiffOp → Bool
  | .change (JKey.s k' :: _) _ _ => k' = k
  | .add [] (JKey.s k') _ => k' = k
  | .add (JKey.s k' :: _) _ _ => k' = k
  | .remove [] (JKey.s k') _ => k' = k
  | .remove (JKey.s k' :: _) _ _ => k' = k
  | _ => false

/-- The ignored volatile fields as map keys. -/
def ignoredJKeys : List JKey := ignoreList.map JKey.s

mutual

/-- Well-formedness of a value tree as Python produces it: every dict has
pairwise distinct keys (a Python dict cannot hold a key twice). -/
def wfJ : JValue → Bool
  | .obj f => decide ((f.map Prod.fst).Nodup) && wfFields f
  | .arr xs => wfList xs
  | _ => true

/-- Well-formedness of every value of an association list. -/
def wfFields : List (JKey × JValue) → Bool
  | [] => true
  | (_, v) :: rest => wfJ v && wfFields rest

/-- Well-formedness of every element of a list. -/
def wfList : List JValue → Bool
  | [] => true
  | x :: xs => wfJ x && wfList xs

end

mutual

/-- Python equality == on embedded values: dicts compare by key lookup in both
directions (insertion order is irrelevant), lists elementwise, scalars
structurally. -/
def jeq : JValue → JValue → Bool
  | .obj f, .obj g => jeqSub f g && g.all (fun p => (lookupKey p.1 f).isSome)
  | .arr xs, .arr ys => jeqList xs ys
  | a, b => a = b

/-- Every entry of the first association list is matched by an equal value in
the second. -/
def jeqSub : List (JKey × JValue) → List (JKey × JValue) → Bool
  | [], _ => true
  | (k, v) :: rest, g =>
    (match lookupKey k g with
     | some w => jeq v w
     | none => false) && jeqSub rest g

/-- Elementwise Python equality on lists. -/
def jeqList : List JValue → List JValue → Bool
  | [], [] => true
  | x :: xs, y :: ys => jeq x y && jeqList xs ys
  | _, _ => false

end

/-- Canonical dashed lowercase uuid string: removing the dashes leaves exactly
32 lowercase hex digits and the string is their 8-4-4-4-12 rendering. -/
def isCanonicalUuid (r : String) : Bool :=
  let h := removeAll (['-']) r.data
  h.length = 32 && h.all isLowerHexChar && decide (r.data = uuidFormatChars h)

instance {ε α : Type} [DecidableEq ε] [DecidableEq α] : DecidableEq (Except ε α) := fun a b =>
  match a, b with
  | .ok x, .ok y =>
    if h : x = y then isTrue (by rw [h]) else isFalse (fun hh => by cases hh; exact h rfl)
  | .error x, .error y =>
    if h : x = y then isTrue (by rw [h]) else isFalse (fun hh => by cases hh; exact h rfl)
  | .ok _, .error _ => isFalse (fun hh => by cases hh)
  | .error _, .ok _ => isFalse (fun hh => by cases hh)

/-! Concrete states used to instantiate the claims on explicit inputs. -/

/-- A fresh store with nothing cached. -/
def emptyRecordStore : RecordStore := ⟨[], [], [], [], []⟩

/-- Store caching one block record at version 5. -/
def c3_store : RecordStore :=
  ⟨[("block", [("b1", .obj [(.s "version", .num 5), (.s "title", .str "new")])])], [], [], [], []⟩

/-- A strictly older snapshot (version 3) of the same record. -/
def c3_snapshot : JValue := .obj [(.s "version", .num 3), (.s "title", .str "old")]

/-- Store caching one block record at version 7, the state after a refresh. -/
def c6_store2 : RecordStore :=
  ⟨[("block", [("b1", .obj [(.s "version", .num 7), (.s "title", .str "new")])])], [], [], [], []⟩

/-- A small write operation on a block record. -/
def c1_op : Operation := build_operation "b1" (.list [.s "title"]) (.str "x") .set "block"

/-- Client with an empty store and no open transaction. -/
def c1_client : ClientState := ⟨emptyRecordStore, none⟩

/-- Remote whose submitTransaction post fails and whose fetches return nothing. -/
def c1_net : Remote := ⟨fun _ _ => (none, none), fun _ => [], false⟩

/-- Remote that answers a page-chunk fetch for page p1 with one block record
and accepts posts. -/
def c2_net : Remote :=
  ⟨fun _ _ => (none, none),
   fun p => [("block", [(p, (some (.obj [(.s "version", .num 1), (.s "title", .str "hello")]), some "editor"))])],
   true⟩

/-- Client inside an open transaction during which a page refresh of p1 was
requested and deferred. -/
def c2_client : ClientState := ⟨{ emptyRecordStore with pages_to_refresh := ["p1"] }, some []⟩

/-- Store caching one space record under a canonical uuid id. -/
def c8_store : RecordStore :=
  ⟨[("space", [("01234567-89ab-cdef-0123-456789abcdef", .obj [(.s "name", .str "ws")])])],
   [], [], [], []⟩

/-- Remote that accepts posts and returns empty fetch results. -/
def c8_net : Remote := ⟨fun _ _ => (none, none), fun _ => [], true⟩

/-- Store caching a block whose content list is ["A", "C"]. -/
def c4_store : RecordStore :=
  ⟨[("block", [("p1", .obj [(.s "content", .arr [.str "A", .str "C"])])])], [], [], [], []⟩

/-- Arguments of a listAfter adding id B after A. -/
def c4_args : JValue := .obj [(.s "after", .str "A"), (.s "id", .str "B")]

/-- Store caching a block record whose value is the map a ↦ empty map. -/
def c7_store : RecordStore :=
  ⟨[("block", [("b1", .obj [(.s "a", .obj [])])])], [], [], [], []⟩

/-- Operation built from the dot-delimited string path "a.0.c". -/
def c7_op_str : Operation := build_operation "b1" (.str "a.0.c") (.str "z") .set "block"

/-- Operation built from the list path ["a", 0, "c"] with an integer component. -/
def c7_op_list : Operation :=
  build_operation "b1" (.list [.s "a", .i 0, .s "c"]) (.str "z") .set "block"

/-! Basic lemmas about the association-list and store-state operations. -/

/-- Python equality of the field k across two dicts: equal looked-up values,
or absence on both sides. -/
def jeqAtKey (f g : List (JKey × JValue)) (k : JKey) : Bool :=
  match lookupKey k f, lookupKey k g with
  | some v, some w => jeq v w
  | none, none => true
  | _, _ => false

/-- Cached block record with two registered callbacks. -/
def c5_store : RecordStore :=
  ⟨[("block", [("b1", .obj [(.s "version", .num 1), (.s "title", .str "a")])])],
   [], [], [], [("block", [("b1", [⟨"cb1"⟩, ⟨"cb2"⟩])])]⟩

/-- The cached fields of the c5 record. -/
def c5_f1 : List (JKey × JValue) := [(.s "version", .num 1), (.s "title", .str "a")]

/-- A snapshot differing from c5_f1 only in the volatile version field. -/
def c5_f2V : List (JKey × JValue) := [(.s "version", .num 2), (.s "title", .str "a")]

/-- A snapshot changing the non-volatile title field. -/
def c5_f2T : List (JKey × JValue) := [(.s "version", .num 2), (.s "title", .str "b")]

theorem alookup_aset_same {α : Type} (k : String) (v : α) (l : List (String × α)) :
    alookup k (aset k v l) = some v := by
  induction l with
  | nil => simp [aset, alookup]
  | cons p rest ih =>
    obtain ⟨k', v'⟩ := p
    by_cases h : k' = k
    · simp [aset, h, alookup]
    · simp [aset, h, alookup, ih]

theorem getValue_setValue_same (s : RecordStore) (t i : String) (v : JValue) :
    (s.setValue t i v).getValue t i = some v := by
  unfold RecordStore.setValue RecordStore.getValue
  simp [alookup_aset_same]

theorem getCallbacks_setValue (s : RecordStore) (t i t' i' : String) (v : JValue) :
    (s.setValue t i v).getCallbacks t' i' = s.getCallbacks t' i' := rfl

theorem getCallbacks_setCallbacks_same (s : RecordStore) (t i : String) (l : List Callback) :
    (s.setCallbacks t i l).getCallbacks t i = l := by
  unfold RecordStore.setCallbacks RecordStore.getCallbacks
  simp [alookup_aset_same]

theorem getValue_ensureEntry (s : RecordStore) (t i : String) :
    (s.ensureEntry t i).getValue t i = some ((s.getValue t i).getD (.obj [])) := by
  unfold RecordStore.ensureEntry
  rcases h : s.getValue t i with _ | v
  · simp [h, getValue_setValue_same]
  · simp [h]

theorem getCallbacks_ensureEntry (s : RecordStore) (t i t' i' : String) :
    (s.ensureEntry t i).getCallbacks t' i' = s.getCallbacks t' i' := by
  unfold RecordStore.ensureEntry
  split
  · rfl
  · exact getCallbacks_setValue ..

theorem update_record_stores (s : RecordStore) (table id : String) (v : JValue)
    (hT : jTruthy v = true) :
    (s.update_record table id (some v) none).1.getValue table id = some v := by
  simp only [RecordStore.update_record, hT]
  simp [getValue_setValue_same]

theorem cbMatches_matches_all (cb : Callback) : cbMatches cb (.strSel "") = true := by
  show "".data.isPrefixOf cb.callback_id.data = true
  rw [show "".data = ([] : List Char) from rfl]
  cases cb.callback_id.data <;> rfl

theorem removeMatching_removes_all (l : List Callback) :
    removeMatching (.strSel "") l = [] := by
  induction l with
  | nil => rfl
  | cons cb rest ih => rw [removeMatching, cbMatches_matches_all, if_pos rfl, ih]

/-- C9: remove_callbacks with the default empty-string prefix removes every
callback registered for the record, because Callback equality against a string
tests a callback_id prefix and every callback_id starts with the empty string;
remove_callbacks with None removes nothing and returns immediately. -/
theorem claim_C9_remove_callbacks (s : RecordStore) (table id : String) :
    (∀ cb : Callback, cbMatches cb (.strSel "") = true) ∧
    (s.remove_callbacks table id (some (.strSel ""))).getCallbacks table id = [] ∧
    s.remove_callbacks table id none = s := by
  refine ⟨cbMatches_matches_all, ?_, rfl⟩
  have hrw : s.remove_callbacks table id (some (.strSel "")) =
      s.setCallbacks table id (removeMatching (.strSel "") (s.getCallbacks table id)) := rfl
  rw [hrw, removeMatching_removes_all]
  exact getCallbacks_setCallbacks_same ..

/-- C3 counterexample: a cached block record at version 5, ingested through
store_recordmap with a strictly older version 3 snapshot — no forced refresh
anywhere — is overwritten: the Record Store does downgrade a locally held
record's version. -/
theorem claim_C3_counterexample :
    c3_store.get_current_version "block" "b1" = 5 ∧
    (c3_store.store_recordmap [("block", [("b1", (some c3_snapshot, none))])]).1.getValue "block" "b1"
      = some c3_snapshot ∧
    (c3_store.store_recordmap [("block", [("b1", (some c3_snapshot, none))])]).1.get_current_version
      "block" "b1" = 3 := by
  decide

/-- C3 amended: _update_record (hence store_recordmap) performs no version
comparison at all: any truthy incoming snapshot unconditionally replaces the
cached value, whatever the two version fields are; version staleness is only
ever checked by the Monitor when deciding whether to refresh. -/
theorem claim_C3_amended (s : RecordStore) (table id : String) (v : JValue)
    (hT : jTruthy v = true) :
    (s.update_record table id (some v) none).1.getValue table id = some v :=
  update_record_stores s table id v hT

theorem claim_C3_witness :
    (c3_store.update_record "block" "b1" (some c3_snapshot) none).1.getValue "block" "b1"
      = some c3_snapshot :=
  claim_C3_amended c3_store "block" "b1" c3_snapshot (by decide)

/-- C6: a version notification for (table, id, pushed) enqueues a refresh of
that record exactly when pushed is strictly greater than get_current_version;
get_current_version is -1 for a wholly unknown record and the cached version
field otherwise; consequently a second delivery of the same version after the
cache has caught up (version at least pushed) enqueues nothing. -/
theorem claim_C6_notification (s s2 : RecordStore) (table id : String) (v : Int)
    (f : List (JKey × JValue)) (n : Int) :
    ((table, id) ∈ refresh_updated_records s [⟨table, id, v⟩] ↔
      v > s.get_current_version table id) ∧
    (s.getValue table id = none → s.get_current_version table id = -1) ∧
    (s.getValue table id = some (.obj f) → jTruthy (.obj f) = true →
      lookupKey (.s "version") f = some (.num n) → s.get_current_version table id = n) ∧
    (v ≤ s2.get_current_version table id → refresh_updated_records s2 [⟨table, id, v⟩] = []) := by
  refine ⟨?_, ?_, ?_, ?_⟩
  · unfold refresh_updated_records
    by_cases h : v > s.get_current_version table id
    · simp [h]
    · simp [h]
  · intro h
    simp [RecordStore.get_current_version, h]
  · intro h1 h2 h3
    simp [RecordStore.get_current_version, h1, h2, h3]
  · intro h
    unfold refresh_updated_records
    have : ¬(v > s2.get_current_version table id) := by omega
    simp [this]

theorem claim_C6_witness :
    ("block", "b1") ∈ refresh_updated_records c3_store [⟨"block", "b1", 7⟩] ∧
    emptyRecordStore.get_current_version "block" "b1" = -1 ∧
    c3_store.get_current_version "block" "b1" = 5 ∧
    refresh_updated_records c6_store2 [⟨"block", "b1", 7⟩] = [] := by
  refine ⟨?_, ?_, ?_, ?_⟩
  · exact (claim_C6_notification c3_store c6_store2 "block" "b1" 7
      [(.s "version", .num 5), (.s "title", .str "new")] 5).1.mpr (by decide)
  · exact (claim_C6_notification emptyRecordStore c6_store2 "block" "b1" 7 [] 5).2.1 (by decide)
  · exact (claim_C6_notification c3_store c6_store2 "block" "b1" 7
      [(.s "version", .num 5), (.s "title", .str "new")] 5).2.2.1 (by decide) (by decide) (by decide)
  · exact (claim_C6_notification c3_store c6_store2 "block" "b1" 7
      [(.s "version", .num 5), (.s "title", .str "new")] 5).2.2.2 (by decide)

/-- C1: when the submitTransaction post of a (non-empty, non-buffered) batch
raises, submit_transaction propagates the error before run_local_operations is
reached: no operation is replayed, no callback fires, and every cached record
value is exactly what it was before the attempt. -/
theorem claim_C1_atomic_send_failure (cs : ClientState) (net : Remote) (uid : String)
    (t : Int) (ops : List Operation) (upd : Bool)
    (hTxn : cs.txnOps = none) (hOps : ops ≠ []) (hFail : net.submitOk = false) :
    (submit_transaction cs net uid t ops upd).err = some .httpError ∧
    (submit_transaction cs net uid t ops upd).client.store = cs.store ∧
    (submit_transaction cs net uid t ops upd).fired = [] ∧
    ∀ table id, (submit_transaction cs net uid t ops upd).client.store.getValue table id
      = cs.store.getValue table id := by
  have hE : ops.isEmpty = false := by
    cases ops with
    | nil => exact absurd rfl hOps
    | cons _ _ => rfl
  unfold submit_transaction
  rw [hE, hTxn, hFail]
  exact ⟨rfl, rfl, rfl, fun _ _ => rfl⟩

theorem calls_seq (r : StepResult) (f : RecordStore → StepResult) :
    ∀ c ∈ (r.seq f).calls, c ∈ r.calls ∨ c ∈ (f r.store).calls := by
  intro c hc
  unfold StepResult.seq at hc
  split at hc
  · exact Or.inl hc
  · simp only [List.mem_append] at hc
    exact hc

theorem calls_call_get_record_values (s : RecordStore) (inTxn : Bool) (net : Remote)
    (kwargs : List (String × IdsArg)) :
    ∀ c ∈ (s.call_get_record_values inTxn net kwargs).calls, ∃ reqs, c = .getRecordValues reqs := by
  intro c hc
  unfold RecordStore.call_get_record_values at hc
  dsimp only at hc
  split at hc
  · simp at hc
  · split at hc
    · simp [StepResult.ok] at hc
    · dsimp only at hc
      simp only [List.mem_singleton] at hc
      exact ⟨_, hc⟩

theorem calls_call_load_page_chunk (s : RecordStore) (inTxn : Bool) (net : Remote) (p : String) :
    ∀ c ∈ (s.call_load_page_chunk inTxn net p).calls, c = .loadPageChunk p := by
  intro c hc
  unfold RecordStore.call_load_page_chunk at hc
  split at hc
  · simp [StepResult.ok] at hc
  · dsimp only at hc
    simp only [List.mem_singleton] at hc
    exact hc

theorem calls_drainPages (net : Remote) :
    ∀ ps (s : RecordStore), ∀ c ∈ (drainPages net s ps).calls, ∃ p, c = .loadPageChunk p := by
  intro ps
  induction ps with
  | nil => intro s c hc; simp [drainPages, StepResult.ok] at hc
  | cons p rest ih =>
    intro s c hc
    rw [drainPages] at hc
    rcases calls_seq _ _ c hc with h | h
    · exact ⟨p, calls_call_load_page_chunk _ _ _ _ c h⟩
    · exact ih _ c h

theorem calls_handle_post_transaction_refreshing (s : RecordStore) (net : Remote) :
    ∀ c ∈ (s.handle_post_transaction_refreshing net).calls,
      (∃ p, c = .loadPageChunk p) ∨ (∃ reqs, c = .getRecordValues reqs) := by
  intro c hc
  unfold RecordStore.handle_post_transaction_refreshing at hc
  rcases calls_seq _ _ c hc with h | h
  · exact Or.inl (calls_drainPages net _ _ c h)
  · rcases calls_seq _ _ c h with h2 | h2
    · exact Or.inr (calls_call_get_record_values _ _ _ _ c h2)
    · simp [StepResult.ok] at h2

/-- C2 counterexample: a transaction scope that queued a page refresh and then
exits via an exception still performs the queued loadPageChunk network fetch
and ingests its result into the cache: the refresh queues are executed on
abort, not discarded. -/
theorem claim_C2_counterexample :
    (transaction_exit c2_client c2_net "u" 0 false true).calls = [Call.loadPageChunk "p1"] ∧
    (transaction_exit c2_client c2_net "u" 0 false true).client.store.getValue "block" "p1"
      = some (.obj [(.s "version", .num 1), (.s "title", .str "hello")]) ∧
    c2_client.store.getValue "block" "p1" = none ∧
    (transaction_exit c2_client c2_net "u" 0 false true).client.store.pages_to_refresh = [] ∧
    (transaction_exit c2_client c2_net "u" 0 false true).err = none := by
  decide

/-- C2 amended: on abort (scope exit via an exception, outermost scope) the
pending operation list is discarded — it is neither posted nor replayed, and no
submitTransaction call occurs — but the two deferred refresh queues are not
discarded: __exit__ unconditionally runs handle_post_transaction_refreshing,
so the exit behaves exactly like that drain (executing the queued page and
record refreshes, network fetches included) on the pre-exit store. -/
theorem claim_C2_amended (cs : ClientState) (net : Remote) (uid : String) (t : Int) :
    (transaction_exit cs net uid t false true).client.txnOps = none ∧
    (transaction_exit cs net uid t false true).client.store
      = (cs.store.handle_post_transaction_refreshing net).store ∧
    (transaction_exit cs net uid t false true).calls
      = (cs.store.handle_post_transaction_refreshing net).calls ∧
    (transaction_exit cs net uid t false true).fired
      = (cs.store.handle_post_transaction_refreshing net).fired ∧
    (transaction_exit cs net uid t false true).err
      = (cs.store.handle_post_transaction_refreshing net).err ∧
    ∀ ops, Call.submitTransaction ops ∉ (transaction_exit cs net uid t false true).calls := by
  have hred : transaction_exit cs net uid t false true =
      ⟨⟨(cs.store.handle_post_transaction_refreshing net).store, none⟩,
        [] ++ (cs.store.handle_post_transaction_refreshing net).calls,
        [] ++ (cs.store.handle_post_transaction_refreshing net).fired,
        (cs.store.handle_post_transaction_refreshing net).err⟩ := rfl
  rw [hred]
  refine ⟨rfl, rfl, rfl, rfl, rfl, ?_⟩
  intro ops hmem
  rcases calls_handle_post_transaction_refreshing cs.store net _ hmem with ⟨p, hp⟩ | ⟨reqs, hr⟩
  · cases hp
  · cases hr

theorem claim_C2_witness :
    (transaction_exit c2_client c2_net "u" 0 false true).client.txnOps = none ∧
    Call.submitTransaction [] ∉ (transaction_exit c2_client c2_net "u" 0 false true).calls :=
  ⟨(claim_C2_amended c2_client c2_net "u" 0).1,
   (claim_C2_amended c2_client c2_net "u" 0).2.2.2.2.2 []⟩

theorem lookupKey_setKey_same (k : JKey) (v : JValue) (f : List (JKey × JValue)) :
    lookupKey k (setKey k v f) = some v := by
  induction f with
  | nil => simp [setKey, lookupKey]
  | cons p rest ih =>
    obtain ⟨k', v'⟩ := p
    by_cases h : k' = k
    · simp [setKey, h, lookupKey]
    · simp [setKey, h, lookupKey, ih]

theorem setKey_ne_nil (k : JKey) (v : JValue) (f : List (JKey × JValue)) :
    setKey k v f ≠ [] := by
  cases f with
  | nil => simp [setKey]
  | cons p rest =>
    obtain ⟨k', v'⟩ := p
    by_cases h : k' = k
    · simp [setKey, h]
    · simp [setKey, h]

theorem resolvesTo_setAtPath : ∀ (path : List JKey) (v tgt leaf : JValue),
    resolvesTo path v = some tgt → resolvesTo path (setAtPath path v leaf) = some leaf := by
  intro path
  induction path with
  | nil => intro v tgt leaf _; rfl
  | cons k rest ih =>
    intro v tgt leaf h
    cases v with
    | obj f =>
      rw [resolvesTo] at h
      rcases hl : lookupKey k f with _ | v'
      · rw [hl] at h; simp at h
      · rw [hl] at h
        rw [setAtPath, resolvesTo, lookupKey_setKey_same, hl]
        exact ih v' tgt leaf h
    | null => simp [resolvesTo] at h
    | bool b => simp [resolvesTo] at h
    | num n => simp [resolvesTo] at h
    | str s => simp [resolvesTo] at h
    | arr xs => simp [resolvesTo] at h

theorem jTruthy_setAtPath_of_resolves (path : List JKey) (v tgt leaf : JValue)
    (h : resolvesTo path v = some tgt) (hleaf : jTruthy leaf = true) :
    jTruthy (setAtPath path v leaf) = true := by
  cases path with
  | nil => rw [setAtPath]; exact hleaf
  | cons k rest =>
    cases v with
    | obj f =>
      rw [setAtPath, jTruthy]
      have := setKey_ne_nil k (setAtPath rest ((lookupKey k f).getD .null) leaf) f
      simp [List.isEmpty_iff, this]
    | null => simp [resolvesTo] at h
    | bool b => simp [resolvesTo] at h
    | num n => simp [resolvesTo] at h
    | str s => simp [resolvesTo] at h
    | arr xs => simp [resolvesTo] at h

theorem runPath_resolved (command : Command) (hc : command ≠ .set) (args : JValue) :
    ∀ (path : List JKey) (v tgt : JValue), resolvesTo path v = some tgt →
      runPath command args path v = (applyCmd command args [] tgt).map (setAtPath path v) := by
  intro path
  induction path with
  | nil =>
    intro v tgt h
    rw [resolvesTo] at h
    injection h with h
    subst h
    rw [runPath]
    cases happ : applyCmd command args [] v with
    | ok leaf => rfl
    | error e => rfl

  | cons comp rest ih =>
    intro v tgt h
    cases v with
    | obj f =>
      rw [resolvesTo] at h
      rcases hl : lookupKey comp f with _ | v'
      · rw [hl] at h; simp at h
      · rw [hl] at h
        have hcond : ¬((rest.isEmpty && decide (command = Command.set)) = true) := by
          rcases hcs : decide (command = Command.set) with _ | _
          · simp
          · exact absurd (of_decide_eq_true hcs) hc
        rw [runPath, if_neg hcond]
        simp only [hl]
        rw [ih v' tgt h]
        cases happ : applyCmd command args [] tgt with
        | ok leaf => simp only [Except.map, setAtPath, hl, Option.getD]
        | error e => rfl
    | null => simp [resolvesTo] at h
    | bool b => simp [resolvesTo] at h
    | num n => simp [resolvesTo] at h
    | str s => simp [resolvesTo] at h
    | arr xs => simp [resolvesTo] at h

theorem run_local_op_list_result (s : RecordStore) (table id : String) (path : List JKey)
    (command : Command) (args : JValue) (l newList : List JValue)
    (hc : command ≠ .set)
    (hres : resolvesTo path ((s.getValue table id).getD (.obj [])) = some (.arr l))
    (happly : applyCmd command args [] (.arr l) = .ok (.arr newList))
    (hne : newList ≠ []) :
    (s.run_local_operation table id path command args).2.2 = none ∧
    ∃ v', (s.run_local_operation table id path command args).1.getValue table id = some v' ∧
      resolvesTo path v' = some (.arr newList) := by
  have hcur : ((s.ensureEntry table id).getValue table id).getD (.obj [])
      = (s.getValue table id).getD (.obj []) := by
    rw [getValue_ensureEntry]
    rfl
  have hrp : runPath command args path (((s.ensureEntry table id).getValue table id).getD (.obj []))
      = .ok (setAtPath path ((s.getValue table id).getD (.obj [])) (.arr newList)) := by
    rw [hcur, runPath_resolved command hc args path _ _ hres, happly]
    rfl
  have htr : jTruthy (setAtPath path ((s.getValue table id).getD (.obj [])) (.arr newList)) = true := by
    refine jTruthy_setAtPath_of_resolves path _ _ _ hres ?_
    rw [jTruthy]
    cases newList with
    | nil => exact absurd rfl hne
    | cons a tl => rfl
  have hunf : s.run_local_operation table id path command args
      = (match runPath command args path
            (((s.ensureEntry table id).getValue table id).getD (.obj [])) with
         | .error e => ((s.ensureEntry table id), [], some e)
         | .ok newVal =>
           (((s.ensureEntry table id).update_record table id (some newVal) none).1,
            ((s.ensureEntry table id).update_record table id (some newVal) none).2, none)) := rfl
  rw [hunf, hrp]
  refine ⟨rfl, setAtPath path ((s.getValue table id).getD (.obj [])) (.arr newList), ?_, ?_⟩
  · exact update_record_stores _ table id _ htr
  · exact resolvesTo_setAtPath path _ _ _ hres

theorem pyListInsert_of_le (n : Nat) (v : JValue) (xs : List JValue) (hn : n ≤ xs.length) :
    pyListInsert (n : Int) v xs = xs.take n ++ v :: xs.drop n := by
  unfold pyListInsert
  have h1 : ¬((n : Int) < 0) := by omega
  rw [if_neg h1]
  have h2 : (n : Int).toNat = n := Int.toNat_natCast n
  rw [h2]
  rw [min_eq_left hn]

/-- C4: on a record whose value at a path of existing map keys is an ordered
sequence, local replay of listAfter inserts args.id immediately after the first
occurrence of args.after when that key is supplied (appending otherwise), and
listBefore inserts immediately before args.before (prepending otherwise); the
replay succeeds and the cached record's value at that path is the new
sequence. -/
theorem claim_C4_list_commands (s : RecordStore) (table id : String) (path : List JKey)
    (g : List (JKey × JValue)) (l : List JValue) (idv av bv : JValue)
    (hres : resolvesTo path ((s.getValue table id).getD (.obj [])) = some (.arr l))
    (hid : lookupKey (.s "id") g = some idv) :
    (lookupKey (.s "after") g = some av → av ∈ l →
      (s.run_local_operation table id path .listAfter (.obj g)).2.2 = none ∧
      ∃ v', (s.run_local_operation table id path .listAfter (.obj g)).1.getValue table id = some v' ∧
        resolvesTo path v' = some (.arr
          (l.take (l.indexOf av + 1) ++ idv :: l.drop (l.indexOf av + 1)))) ∧
    (lookupKey (.s "after") g = none →
      (s.run_local_operation table id path .listAfter (.obj g)).2.2 = none ∧
      ∃ v', (s.run_local_operation table id path .listAfter (.obj g)).1.getValue table id = some v' ∧
        resolvesTo path v' = some (.arr (l ++ [idv]))) ∧
    (lookupKey (.s "before") g = some bv → bv ∈ l →
      (s.run_local_operation table id path .listBefore (.obj g)).2.2 = none ∧
      ∃ v', (s.run_local_operation table id path .listBefore (.obj g)).1.getValue table id = some v' ∧
        resolvesTo path v' = some (.arr
          (l.take (l.indexOf bv) ++ idv :: l.drop (l.indexOf bv)))) ∧
    (lookupKey (.s "before") g = none →
      (s.run_local_operation table id path .listBefore (.obj g)).2.2 = none ∧
      ∃ v', (s.run_local_operation table id path .listBefore (.obj g)).1.getValue table id = some v' ∧
        resolvesTo path v' = some (.arr (idv :: l))) := by
  refine ⟨?_, ?_, ?_, ?_⟩
  · intro hafter hmem
    have hidx : l.indexOf av < l.length := List.indexOf_lt_length.mpr hmem
    have happ : applyCmd .listAfter (.obj g) [] (.arr l)
        = .ok (.arr (l.take (l.indexOf av + 1) ++ idv :: l.drop (l.indexOf av + 1))) := by
      simp only [applyCmd, hafter, listIndex, if_pos hmem, hid]
      have hcast : ((l.indexOf av : Int) + 1) = ((l.indexOf av + 1 : Nat) : Int) := by push_cast; ring
      rw [hcast, pyListInsert_of_le _ _ _ (by omega)]
    exact run_local_op_list_result s table id path .listAfter (.obj g) l _ (by decide) hres happ
      (by simp)
  · intro hafter
    have happ : applyCmd .listAfter (.obj g) [] (.arr l) = .ok (.arr (l ++ [idv])) := by
      simp only [applyCmd, hafter, hid]
    exact run_local_op_list_result s table id path .listAfter (.obj g) l _ (by decide) hres happ
      (by simp)
  · intro hbefore hmem
    have hidx : l.indexOf bv < l.length := List.indexOf_lt_length.mpr hmem
    have happ : applyCmd .listBefore (.obj g) [] (.arr l)
        = .ok (.arr (l.take (l.indexOf bv) ++ idv :: l.drop (l.indexOf bv))) := by
      simp only [applyCmd, hbefore, listIndex, if_pos hmem, hid]
      rw [pyListInsert_of_le _ _ _ (by omega)]
    exact run_local_op_list_result s table id path .listBefore (.obj g) l _ (by decide) hres happ
      (by simp)
  · intro hbefore
    have happ : applyCmd .listBefore (.obj g) [] (.arr l) = .ok (.arr (idv :: l)) := by
      simp only [applyCmd, hbefore, hid]
      have hins : pyListInsert (0 : Int) idv l = l.take 0 ++ idv :: l.drop 0 :=
        pyListInsert_of_le 0 idv l (by omega)
      simp only [List.take_zero, List.drop_zero, List.nil_append] at hins
      rw [hins]
    exact run_local_op_list_result s table id path .listBefore (.obj g) l _ (by decide) hres happ
      (by simp)

theorem claim_C4_witness :
    (c4_store.run_local_operation "block" "p1" [.s "content"] .listAfter c4_args).2.2 = none ∧
    ∃ v', (c4_store.run_local_operation "block" "p1" [.s "content"] .listAfter
        c4_args).1.getValue "block" "p1" = some v' ∧
      resolvesTo [.s "content"] v' = some (.arr [.str "A", .str "B", .str "C"]) :=
  (claim_C4_list_commands c4_store "block" "p1" [.s "content"]
      [(.s "after", .str "A"), (.s "id", .str "B")] [.str "A", .str "C"] (.str "B") (.str "A")
      (.str "A") (by decide) (by decide)).1 (by decide) (by decide)

/-- C7 counterexample: build_operation turns "a.0.c" into the three string
components a, "0", c, while the list form keeps the integer 0; replaying both
operations from the same cached record succeeds but produces different cached
values (a dict entry under the string key "0" versus under the integer key 0),
and get_by_path applied to the replayed value reads different results through
the two path forms — so the two forms do not address the same location. -/
theorem claim_C7_counterexample :
    c7_op_str.path = [.s "a", .s "0", .s "c"] ∧
    c7_op_list.path = [.s "a", .i 0, .s "c"] ∧
    (c7_store.run_local_operation "block" "b1" c7_op_str.path c7_op_str.command
      c7_op_str.args).2.2 = none ∧
    (c7_store.run_local_operation "block" "b1" c7_op_list.path c7_op_list.command
      c7_op_list.args).2.2 = none ∧
    (c7_store.run_local_operation "block" "b1" c7_op_str.path c7_op_str.command
        c7_op_str.args).1.getValue "block" "b1"
      ≠ (c7_store.run_local_operation "block" "b1" c7_op_list.path c7_op_list.command
        c7_op_list.args).1.getValue "block" "b1" ∧
    get_by_path (.str "a.0.c")
        (((c7_store.run_local_operation "block" "b1" c7_op_str.path c7_op_str.command
          c7_op_str.args).1.getValue "block" "b1").getD .null) .null
      ≠ get_by_path (.list [.s "a", .i 0, .s "c"])
        (((c7_store.run_local_operation "block" "b1" c7_op_str.path c7_op_str.command
          c7_op_str.args).1.getValue "block" "b1").getD .null) .null := by
  decide

/-- C7 amended: build_operation normalizes the dot-delimited string "a.b.0"
into the all-string component list, so the string form addresses exactly what
the same list of string components addresses; and get_by_path coerces a string
component to an integer when descending into a list, so the two forms read the
same value there.  With an integer component, as in ["a","b",0], the local
replay interpreter — which performs no such coercion — can address a different
location than the string form (see the counterexample). -/
theorem claim_C7_amended (id p : String) (args : JValue) (cmd : Command) (table : String)
    (xs : List JValue) (rest : List JKey) (d : JValue) (str0 : String) (n : Int)
    (hconv : pyStrToInt str0 = some n) :
    build_operation id (.str p) args cmd table
      = build_operation id
          (.list ((splitOnL (['.']) p.data).map (fun cs => JKey.s (String.mk cs)))) args cmd table ∧
    getByPathLoop d (JKey.s str0 :: rest) (.arr xs)
      = getByPathLoop d (JKey.i n :: rest) (.arr xs) := by
  constructor
  · rfl
  · simp only [getByPathLoop, hconv]

theorem claim_C7_witness :
    build_operation "x" (.str "a.b.0") .null .set "block"
      = build_operation "x" (.list [.s "a", .s "b", .s "0"]) .null .set "block" ∧
    getByPathLoop .null [JKey.s "0"] (.arr [.str "q"])
      = getByPathLoop .null [JKey.i 0] (.arr [.str "q"]) := by
  have h := claim_C7_amended "x" "a.b.0" .null .set "block" [.str "q"] [] .null "0" 0 (by decide)
  exact ⟨h.1, h.2⟩

theorem mem_of_isPrefixOf {pat l : List Char} (h : pat.isPrefixOf l = true) :
    ∀ c ∈ pat, c ∈ l := by
  intro c hc
  exact (List.isPrefixOf_iff_prefix.mp h).sublist.subset hc

theorem removeAllAux_id (pat : List Char) (x : Char) (hx : x ∈ pat) :
    ∀ (fuel : Nat) (cs : List Char), x ∉ cs → removeAllAux pat fuel cs = cs := by
  intro fuel
  induction fuel with
  | zero => intro cs _; rfl
  | succ f ih =>
    intro cs hcs
    cases cs with
    | nil => rfl
    | cons c rest =>
      rw [removeAllAux]
      have hnp : pat.isPrefixOf (c :: rest) = false := by
        rcases hb : pat.isPrefixOf (c :: rest) with _ | _
        · rfl
        · exact absurd (mem_of_isPrefixOf hb x hx) hcs
      have hrest : x ∉ rest := fun hh => hcs (List.mem_cons_of_mem _ hh)
      rw [hnp]
      simp only [Bool.false_eq_true, if_false]
      rw [ih rest hrest]

theorem removeAll_id (pat cs : List Char) (x : Char) (hx : x ∈ pat) (hcs : x ∉ cs) :
    removeAll pat cs = cs := by
  unfold removeAll
  have hne : pat.isEmpty = false := by
    cases pat with
    | nil => cases hx
    | cons a b => rfl
  rw [hne]
  simp only [Bool.false_eq_true, if_false]
  exact removeAllAux_id pat x hx _ cs hcs

theorem removeAllAux_singleton (d : Char) :
    ∀ (cs : List Char) (fuel : Nat), cs.length ≤ fuel →
      removeAllAux ([d]) fuel cs = cs.filter (fun c => !(d == c)) := by
  intro cs
  induction cs with
  | nil => intro fuel _; cases fuel <;> rfl
  | cons c rest ih =>
    intro fuel hf
    cases fuel with
    | zero => simp at hf
    | succ f =>
      rw [removeAllAux]
      have hpre : (([d] : List Char).isPrefixOf (c :: rest)) = (d == c) := by
        simp [List.isPrefixOf]
      rw [hpre, List.filter_cons]
      by_cases hdc : d = c
      · subst hdc
        simp only [beq_self_eq_true, if_true, Bool.not_true, Bool.false_eq_true, if_false]
        exact ih f (by simp at hf; omega)
      · have hb : (d == c) = false := beq_eq_false_iff_ne.mpr hdc
        rw [hb]
        simp only [Bool.false_eq_true, if_false, Bool.not_false, if_true]
        rw [ih f (by simp at hf; omega)]

theorem removeAll_singleton (d : Char) (cs : List Char) :
    removeAll ([d]) cs = cs.filter (fun c => !(d == c)) := by
  unfold removeAll
  simp only [List.isEmpty_cons, Bool.false_eq_true, if_false]
  exact removeAllAux_singleton d cs (cs.length + 1) (by omega)

theorem mem_uuidFormatChars (h : List Char) :
    ∀ c ∈ uuidFormatChars h, c ∈ h ∨ c = '-' := by
  intro c hc
  unfold uuidFormatChars at hc
  simp only [List.mem_append, List.mem_cons] at hc
  rcases hc with (((h1 | hd1 | h2) | hd2 | h3) | hd3 | h4) | hd4 | h5
  · exact Or.inl (List.take_subset _ _ h1)
  · exact Or.inr hd1
  · exact Or.inl (List.drop_subset _ _ (List.take_subset _ _ h2))
  · exact Or.inr hd2
  · exact Or.inl (List.drop_subset _ _ (List.take_subset _ _ h3))
  · exact Or.inr hd3
  · exact Or.inl (List.drop_subset _ _ (List.take_subset _ _ h4))
  · exact Or.inr hd4
  · exact Or.inl (List.drop_subset _ _ h5)

theorem lowerHex_not_dash {c : Char} (h : isLowerHexChar c = true) : ¬(c = '-') := by
  intro hc
  subst hc
  simp [isLowerHexChar] at h

theorem lowerHex_not_colon {c : Char} (h : isLowerHexChar c = true) : ¬(c = ':') := by
  intro hc
  subst hc
  simp [isLowerHexChar] at h

theorem format_char_prop (h : List Char) (hall : ∀ c ∈ h, isLowerHexChar c = true) :
    ∀ c ∈ uuidFormatChars h, isLowerHexChar c = true ∨ c = '-' := by
  intro c hc
  rcases mem_uuidFormatChars h c hc with hm | hd
  · exact Or.inl (hall c hm)
  · exact Or.inr hd

theorem colon_not_mem_format (h : List Char) (hall : ∀ c ∈ h, isLowerHexChar c = true) :
    (':' : Char) ∉ uuidFormatChars h := by
  intro hc
  rcases format_char_prop h hall _ hc with hl | hd
  · simp [isLowerHexChar] at hl
  · cases hd

theorem stripChars_id (cset cs : List Char) (hno : ∀ c ∈ cs, cset.contains c = false) :
    stripChars cset cs = cs := by
  have hdw : ∀ l : List Char, (∀ c ∈ l, cset.contains c = false) →
      l.dropWhile (fun c => cset.contains c) = l := by
    intro l hl
    cases l with
    | nil => rfl
    | cons a b =>
      rw [List.dropWhile_cons, hl a (List.mem_cons_self a b)]
      simp
  unfold stripChars
  rw [hdw cs hno]
  rw [hdw cs.reverse (fun c hc => hno c (List.mem_reverse.mp hc))]
  exact List.reverse_reverse cs

theorem braces_not_mem_format (h : List Char) (hall : ∀ c ∈ h, isLowerHexChar c = true) :
    ∀ c ∈ uuidFormatChars h, bracesChars.contains c = false := by
  intro c hc
  rcases format_char_prop h hall _ hc with hl | hd
  · simp only [isLowerHexChar, Bool.or_eq_true, Bool.and_eq_true, decide_eq_true_eq] at hl
    simp only [bracesChars, List.contains_cons, List.contains_nil, Bool.or_false]
    have h1 : (c == Char.ofNat 123) = false := by
      rw [beq_eq_false_iff_ne]
      intro he
      rw [he] at hl
      revert hl
      decide
    have h2 : (c == Char.ofNat 125) = false := by
      rw [beq_eq_false_iff_ne]
      intro he
      rw [he] at hl
      revert hl
      decide
    rw [h1, h2]
    rfl
  · subst hd
    decide

theorem removeAll_dash_format (h : List Char) (hall : ∀ c ∈ h, isLowerHexChar c = true) :
    removeAll (['-']) (uuidFormatChars h) = h := by
  rw [removeAll_singleton]
  have hpart : ∀ l : List Char, (∀ c ∈ l, c ∈ h) →
      l.filter (fun c => !('-' == c)) = l := by
    intro l hl
    rw [List.filter_eq_self]
    intro a ha
    have hla := hall a (hl a ha)
    have : ¬('-' = a) := fun he => lowerHex_not_dash hla he.symm
    simp [beq_eq_false_iff_ne.mpr this]
  unfold uuidFormatChars
  rw [List.filter_append, List.filter_cons]
  rw [List.filter_append, List.filter_cons]
  rw [List.filter_append, List.filter_cons]
  rw [List.filter_append, List.filter_cons]
  have hdash : (!('-' == ('-' : Char))) = false := by decide
  rw [hdash]
  simp only [Bool.false_eq_true, if_false]
  rw [hpart (h.take 8) (fun c hc => List.take_subset _ _ hc)]
  rw [hpart ((h.drop 8).take 4) (fun c hc => List.drop_subset _ _ (List.take_subset _ _ hc))]
  rw [hpart ((h.drop 12).take 4) (fun c hc => List.drop_subset _ _ (List.take_subset _ _ hc))]
  rw [hpart ((h.drop 16).take 4) (fun c hc => List.drop_subset _ _ (List.take_subset _ _ hc))]
  rw [hpart (h.drop 20) (fun c hc => List.drop_subset _ _ hc)]
  rw [show h.drop 20 = (h.drop 16).drop 4 from by rw [List.drop_drop]]
  rw [List.append_assoc _ ((h.drop 16).take 4) ((h.drop 16).drop 4)]
  rw [List.take_append_drop 4 (h.drop 16)]
  rw [show h.drop 16 = (h.drop 12).drop 4 from by rw [List.drop_drop]]
  rw [List.append_assoc _ ((h.drop 12).take 4) ((h.drop 12).drop 4)]
  rw [List.take_append_drop 4 (h.drop 12)]
  rw [show h.drop 12 = (h.drop 8).drop 4 from by rw [List.drop_drop]]
  rw [List.append_assoc _ ((h.drop 8).take 4) ((h.drop 8).drop 4)]
  rw [List.take_append_drop 4 (h.drop 8)]
  rw [List.take_append_drop 8 h]

theorem toLowerHexChar_lower (c : Char) (h : isHexDigitChar c = true) :
    isLowerHexChar (toLowerHexChar c) = true := by
  simp only [isHexDigitChar, Bool.or_eq_true, Bool.and_eq_true, decide_eq_true_eq] at h
  unfold toLowerHexChar
  by_cases h1 : c.toNat = 65
  · rw [if_pos h1]; decide
  rw [if_neg h1]
  by_cases h2 : c.toNat = 66
  · rw [if_pos h2]; decide
  rw [if_neg h2]
  by_cases h3 : c.toNat = 67
  · rw [if_pos h3]; decide
  rw [if_neg h3]
  by_cases h4 : c.toNat = 68
  · rw [if_pos h4]; decide
  rw [if_neg h4]
  by_cases h5 : c.toNat = 69
  · rw [if_pos h5]; decide
  rw [if_neg h5]
  by_cases h6 : c.toNat = 70
  · rw [if_pos h6]; decide
  rw [if_neg h6]
  simp only [isLowerHexChar, Bool.or_eq_true, Bool.and_eq_true, decide_eq_true_eq]
  omega

theorem toLowerHexChar_fix (c : Char) (h : isLowerHexChar c = true) :
    toLowerHexChar c = c := by
  simp only [isLowerHexChar, Bool.or_eq_true, Bool.and_eq_true, decide_eq_true_eq] at h
  unfold toLowerHexChar
  rw [if_neg (by omega), if_neg (by omega), if_neg (by omega), if_neg (by omega),
    if_neg (by omega), if_neg (by omega)]

theorem lowerHex_isHex (c : Char) (h : isLowerHexChar c = true) : isHexDigitChar c = true := by
  simp only [isLowerHexChar, Bool.or_eq_true, Bool.and_eq_true, decide_eq_true_eq] at h
  simp only [isHexDigitChar, Bool.or_eq_true, Bool.and_eq_true, decide_eq_true_eq]
  omega

theorem uuidParseChars_props (cs h : List Char) (hp : uuidParseChars cs = some h) :
    h.length = 32 ∧ ∀ c ∈ h, isLowerHexChar c = true := by
  unfold uuidParseChars at hp
  split at hp
  · next hcond =>
    injection hp with hp
    subst hp
    simp only [Bool.and_eq_true, decide_eq_true_eq, List.all_eq_true] at hcond
    constructor
    · rw [List.length_map]
      exact hcond.1
    · intro c hc
      rcases List.mem_map.mp hc with ⟨c0, hc0, rfl⟩
      exact toLowerHexChar_lower c0 (hcond.2 c0 hc0)
  · cases hp

theorem uuidNormHex_format (h : List Char) (hall : ∀ c ∈ h, isLowerHexChar c = true) :
    uuidNormHex (uuidFormatChars h) = h := by
  unfold uuidNormHex
  rw [removeAll_id ("urn:".data) _ ':' (by decide)
    (colon_not_mem_format h hall)]
  rw [removeAll_id ("uuid:".data) _ ':' (by decide)
    (colon_not_mem_format h hall)]
  rw [stripChars_id bracesChars _ (braces_not_mem_format h hall)]
  exact removeAll_dash_format h hall

theorem uuidParseChars_format (h : List Char) (hlen : h.length = 32)
    (hall : ∀ c ∈ h, isLowerHexChar c = true) :
    uuidParseChars (uuidFormatChars h) = some h := by
  unfold uuidParseChars
  rw [uuidNormHex_format h hall]
  have hcond : (h.length = 32 && h.all isHexDigitChar) = true := by
    simp only [Bool.and_eq_true, decide_eq_true_eq, List.all_eq_true]
    exact ⟨hlen, fun c hc => lowerHex_isHex c (hall c hc)⟩
  rw [hcond]
  simp only [if_true]
  congr 1
  have : ∀ c ∈ h, toLowerHexChar c = c := fun c hc => toLowerHexChar_fix c (hall c hc)
  calc h.map toLowerHexChar = h.map id := List.map_congr_left this
    _ = h := List.map_id h

theorem baseUrl_not_prefix_format (h : List Char) (hlen : h.length = 32)
    (hall : ∀ c ∈ h, isLowerHexChar c = true) :
    baseUrlChars.isPrefixOf (uuidFormatChars h) = false := by
  cases h with
  | nil => simp at hlen
  | cons c0 t =>
    have hc0 : isLowerHexChar c0 = true := hall c0 (List.mem_cons_self c0 t)
    have hfmt : uuidFormatChars (c0 :: t) = c0 :: (t.take 7 ++ '-' :: (((c0 :: t).drop 8).take 4)
        ++ '-' :: (((c0 :: t).drop 12).take 4) ++ '-' :: (((c0 :: t).drop 16).take 4)
        ++ '-' :: ((c0 :: t).drop 20)) := by
      unfold uuidFormatChars
      rw [List.take_succ_cons]
      rfl
    rw [hfmt]
    rw [show baseUrlChars = 'h' :: "ttps://www.notion.so/".data from rfl]
    rw [List.isPrefixOf]
    have : ('h' == c0) = false := by
      rw [beq_eq_false_iff_ne]
      intro he
      have := congrArg Char.toNat he
      simp only [isLowerHexChar, Bool.or_eq_true, Bool.and_eq_true, decide_eq_true_eq] at hc0
      simp at this
      omega
    rw [this]
    rfl

theorem extractIdChars_ok_shape (cs out : List Char) (h : extractIdChars cs = .ok out) :
    ∃ h32, out = uuidFormatChars h32 ∧ h32.length = 32 ∧ ∀ c ∈ h32, isLowerHexChar c = true := by
  unfold extractIdChars at h
  rcases hp : uuidParseChars (extractIdUrlTail cs) with _ | h32
  · rw [hp] at h; cases h
  · rw [hp] at h
    injection h with h
    obtain ⟨hl, ha⟩ := uuidParseChars_props _ _ hp
    exact ⟨h32, h.symm, hl, ha⟩

theorem extractIdChars_canonical (h32 : List Char) (hlen : h32.length = 32)
    (hall : ∀ c ∈ h32, isLowerHexChar c = true) :
    extractIdChars (uuidFormatChars h32) = .ok (uuidFormatChars h32) := by
  unfold extractIdChars extractIdUrlTail
  rw [baseUrl_not_prefix_format h32 hlen hall]
  simp only [Bool.false_eq_true, if_false]
  rw [uuidParseChars_format h32 hlen hall]

theorem extract_id_idem {raw canon : String} (h : extract_id raw = .ok canon) :
    extract_id canon = .ok canon := by
  unfold extract_id at h
  rcases he : extractIdChars raw.data with out | out
  · rw [he] at h; cases h
  · rw [he] at h
    injection h with h
    obtain ⟨h32, hout, hlen, hall⟩ := extractIdChars_ok_shape _ _ he
    subst hout
    unfold extract_id
    have hdm : (String.mk (uuidFormatChars h32)).data = uuidFormatChars h32 := rfl
    rw [← h, hdm, extractIdChars_canonical h32 hlen hall]

theorem isCanonicalUuid_format (h32 : List Char) (hlen : h32.length = 32)
    (hall : ∀ c ∈ h32, isLowerHexChar c = true) :
    isCanonicalUuid (String.mk (uuidFormatChars h32)) = true := by
  unfold isCanonicalUuid
  have hdm : (String.mk (uuidFormatChars h32)).data = uuidFormatChars h32 := rfl
  rw [hdm, removeAll_dash_format h32 hall]
  simp only [Bool.and_eq_true, decide_eq_true_eq, List.all_eq_true]
  exact ⟨⟨hlen, hall⟩, trivial⟩

/-- C10: extract_id is idempotent on accepted inputs — a successful result is a
canonical dashed lowercase uuid string and re-extracting it returns the same
string — and an input that is not a Notion URL and does not parse as a uuid
raises InvalidNotionIdentifier carrying that input. -/
theorem claim_C10_extract_id (s r : String) :
    (extract_id s = .ok r → isCanonicalUuid r = true ∧ extract_id r = .ok r) ∧
    (baseUrlChars.isPrefixOf s.data = false → uuidParseChars s.data = none →
      extract_id s = .error (.invalidNotionIdentifier s)) := by
  constructor
  · intro h
    refine ⟨?_, extract_id_idem h⟩
    unfold extract_id at h
    rcases he : extractIdChars s.data with out | out
    · rw [he] at h; cases h
    · rw [he] at h
      injection h with h
      obtain ⟨h32, hout, hlen, hall⟩ := extractIdChars_ok_shape _ _ he
      subst hout
      rw [← h]
      exact isCanonicalUuid_format h32 hlen hall
  · intro hurl hparse
    unfold extract_id extractIdChars extractIdUrlTail
    rw [hurl]
    simp only [Bool.false_eq_true, if_false]
    rw [hparse]

theorem claim_C10_witness :
    (isCanonicalUuid "01234567-89ab-cdef-0123-456789abcdef" = true ∧
      extract_id "01234567-89ab-cdef-0123-456789abcdef"
        = .ok "01234567-89ab-cdef-0123-456789abcdef") ∧
    extract_id "zzz" = .error (.invalidNotionIdentifier "zzz") := by
  constructor
  · exact (claim_C10_extract_id "01234567-89ab-cdef-0123-456789abcdef"
      "01234567-89ab-cdef-0123-456789abcdef").1 (by decide)
  · exact (claim_C10_extract_id "zzz" "zzz").2 (by decide) (by decide)

theorem cgrv_singleton (s : RecordStore) (net : Remote) (table id : String)
    (hid2 : extract_id id = .ok id) :
    s.call_get_record_values false net [(table, IdsArg.ids [id])]
      = ⟨(s.update_record table id (net.recordValues table id).1 (net.recordValues table id).2).1,
         [.getRecordValues [(table, id)]],
         (s.update_record table id (net.recordValues table id).1 (net.recordValues table id).2).2,
         none⟩ := by
  have hmapm : ([id] : List String).mapM extract_id = .ok [id] := by
    rw [List.mapM_cons, List.mapM_nil, hid2]
    rfl
  have hloop : cgrvLoop false s [(table, IdsArg.ids [id])] = (s, [(table, id)], none) := by
    rw [cgrvLoop, hmapm]
    rfl
  unfold RecordStore.call_get_record_values
  rw [hloop]
  rfl

/-- C8: get normalizes the id and then (outside a transaction) performs a
server fetch exactly when the record is absent from the cache or force_refresh
is set — a loadPageChunk fetch for the block table, a getRecordValues fetch
for the single requested record otherwise — after which it re-reads the cache
and returns None, raising nothing, when the record is still absent. -/
theorem claim_C8_get (s : RecordStore) (net : Remote) (table rawId id : String) (force : Bool)
    (hid : extract_id rawId = .ok id) :
    ((s.getValue table id).isSome = true → force = false →
      s.get false net table rawId force = ⟨s.getValue table id, s, [], [], none⟩) ∧
    (s.getValue table id = none ∨ force = true →
      (s.get false net table rawId force).err = none ∧
      (s.get false net table rawId force).calls
        = (if table = "block" then [Call.loadPageChunk id]
           else [Call.getRecordValues [(table, id)]]) ∧
      (s.get false net table rawId force).result
        = (s.get false net table rawId force).store.getValue table id ∧
      ((s.get false net table rawId force).store.getValue table id = none →
        (s.get false net table rawId force).result = none)) := by
  have hunf : s.get false net table rawId force =
      (if ((s.getValue table id).isNone || force) = true then
        match (s.getFetch false net table id).err with
        | some e => ⟨none, (s.getFetch false net table id).store,
            (s.getFetch false net table id).calls, (s.getFetch false net table id).fired, some e⟩
        | none => ⟨(s.getFetch false net table id).store.getValue table id,
            (s.getFetch false net table id).store, (s.getFetch false net table id).calls,
            (s.getFetch false net table id).fired, none⟩
      else ⟨s.getValue table id, s, [], [], none⟩) := by
    unfold RecordStore.get
    rw [hid]
  constructor
  · intro hsome hforce
    have h1 : (s.getValue table id).isNone = false := by
      rcases hv : s.getValue table id with _ | v
      · rw [hv] at hsome; cases hsome
      · rfl
    rw [hunf, h1, hforce]
    rfl
  · intro hcond
    have h2 : ((s.getValue table id).isNone || force) = true := by
      rcases hcond with hn | hf
      · rw [hn]; rfl
      · rw [hf]; simp
    rw [hunf, h2, if_pos rfl]
    by_cases ht : table = "block"
    · have hf : s.getFetch false net table id
          = ⟨(s.store_recordmap (net.pageChunk id)).1, [.loadPageChunk id],
             (s.store_recordmap (net.pageChunk id)).2, none⟩ := by
        unfold RecordStore.getFetch
        rw [if_pos ht]
        rfl
      rw [hf, if_pos ht]
      exact ⟨rfl, rfl, rfl, fun h => h⟩
    · have hf : s.getFetch false net table id
          = ⟨(s.update_record table id (net.recordValues table id).1
                (net.recordValues table id).2).1,
             [.getRecordValues [(table, id)]],
             (s.update_record table id (net.recordValues table id).1
                (net.recordValues table id).2).2,
             none⟩ := by
        unfold RecordStore.getFetch
        rw [if_neg ht]
        exact cgrv_singleton s net table id (extract_id_idem hid)
      rw [hf, if_neg ht]
      exact ⟨rfl, rfl, rfl, fun h => h⟩

theorem claim_C8_witness :
    c8_store.get false c8_net "space" "01234567-89ab-cdef-0123-456789abcdef" false
      = ⟨some (.obj [(.s "name", .str "ws")]), c8_store, [], [], none⟩ ∧
    (emptyRecordStore.get false c8_net "space" "01234567-89ab-cdef-0123-456789abcdef" false).err
      = none ∧
    (emptyRecordStore.get false c8_net "space" "01234567-89ab-cdef-0123-456789abcdef" false).calls
      = [Call.getRecordValues [("space", "01234567-89ab-cdef-0123-456789abcdef")]] ∧
    (emptyRecordStore.get false c8_net "space" "01234567-89ab-cdef-0123-456789abcdef" false).result
      = none := by
  have h1 := (claim_C8_get c8_store c8_net "space" "01234567-89ab-cdef-0123-456789abcdef"
    "01234567-89ab-cdef-0123-456789abcdef" false (by decide)).1 (by decide) rfl
  have h2 := (claim_C8_get emptyRecordStore c8_net "space"
    "01234567-89ab-cdef-0123-456789abcdef" "01234567-89ab-cdef-0123-456789abcdef" false
    (by decide)).2 (Or.inl (by decide))
  exact ⟨h1, h2.1, h2.2.1, h2.2.2.2 (by decide)⟩

theorem mem_of_lookupKey {k : JKey} {v : JValue} :
    ∀ {f : List (JKey × JValue)}, lookupKey k f = some v → (k, v) ∈ f := by
  intro f
  induction f with
  | nil => intro h; cases h
  | cons p rest ih =>
    intro h
    obtain ⟨k', v'⟩ := p
    rw [lookupKey] at h
    by_cases he : k' = k
    · rw [if_pos he] at h
      injection h with h
      subst he
      subst h
      exact List.mem_cons_self _ _
    · rw [if_neg he] at h
      exact List.mem_cons_of_mem _ (ih h)

theorem isSome_lookupKey_of_mem {k : JKey} {v : JValue} :
    ∀ {f : List (JKey × JValue)}, (k, v) ∈ f → (lookupKey k f).isSome = true := by
  intro f
  induction f with
  | nil => intro h; cases h
  | cons p rest ih =>
    intro h
    obtain ⟨k', v'⟩ := p
    rw [lookupKey]
    by_cases he : k' = k
    · rw [if_pos he]; rfl
    · rw [if_neg he]
      rcases List.mem_cons.mp h with heq | hm
      · exact absurd (congrArg Prod.fst heq).symm he
      · exact ih hm

theorem lookupKey_of_mem_nodup {k : JKey} {v : JValue} :
    ∀ {f : List (JKey × JValue)}, (f.map Prod.fst).Nodup → (k, v) ∈ f →
      lookupKey k f = some v := by
  intro f
  induction f with
  | nil => intro _ h; cases h
  | cons p rest ih =>
    intro hnd h
    obtain ⟨k', v'⟩ := p
    rw [List.map_cons, List.nodup_cons] at hnd
    rw [lookupKey]
    rcases List.mem_cons.mp h with heq | hm
    · injection heq with h1 h2
      subst h1
      subst h2
      rw [if_pos rfl]
    · by_cases he : k' = k
      · exfalso
        subst he
        exact hnd.1 (List.mem_map.mpr ⟨(k', v), hm, rfl⟩)
      · rw [if_neg he]
        exact ih hnd.2 hm

theorem wfFields_mem : ∀ {f : List (JKey × JValue)}, wfFields f = true →
    ∀ p ∈ f, wfJ p.2 = true := by
  intro f
  induction f with
  | nil => intro _ p hp; cases hp
  | cons q rest ih =>
    intro hw p hp
    obtain ⟨k', v'⟩ := q
    rw [wfFields, Bool.and_eq_true] at hw
    rcases List.mem_cons.mp hp with heq | hm
    · rw [heq]; exact hw.1
    · exact ih hw.2 p hm

theorem wfList_mem : ∀ {xs : List JValue}, wfList xs = true → ∀ x ∈ xs, wfJ x = true := by
  intro xs
  induction xs with
  | nil => intro _ x hx; cases hx
  | cons a rest ih =>
    intro hw x hx
    rw [wfList, Bool.and_eq_true] at hw
    rcases List.mem_cons.mp hx with heq | hm
    · rw [heq]; exact hw.1
    · exact ih hw.2 x hm

theorem wfJ_obj_parts {f : List (JKey × JValue)} (h : wfJ (.obj f) = true) :
    (f.map Prod.fst).Nodup ∧ wfFields f = true := by
  rw [wfJ, Bool.and_eq_true, decide_eq_true_eq] at h
  exact h

theorem wfJ_of_lookupKey {f : List (JKey × JValue)} {k : JKey} {v : JValue}
    (hw : wfJ (.obj f) = true) (hl : lookupKey k f = some v) : wfJ v = true :=
  wfFields_mem (wfJ_obj_parts hw).2 (k, v) (mem_of_lookupKey hl)

theorem dottedIgnored_append_ne {ig : List String} {node : List JKey} (h : node ≠ []) (k : JKey) :
    dottedIgnored ig (node ++ [k]) = false := by
  cases node with
  | nil => exact absurd rfl h
  | cons a rest =>
    rw [List.cons_append]
    cases a with
    | s str1 =>
      cases hr : rest ++ [k] with
      | nil => exact absurd (List.append_eq_nil.mp hr).2 (by simp)
      | cons b tl => rfl
    | i n => rfl

theorem dottedIgnored_int (ig : List String) (node : List JKey) (i : Int) :
    dottedIgnored ig (node ++ [JKey.i i]) = false := by
  cases node with
  | nil => rfl
  | cons a rest =>
    rw [List.cons_append]
    cases a with
    | s str1 =>
      cases hr : rest ++ [JKey.i i] with
      | nil => exact absurd (List.append_eq_nil.mp hr).2 (by simp)
      | cons b tl => rfl
    | i n => rfl

theorem enumFromInt_eq_nil : ∀ {xs : List JValue} {i : Int}, enumFromInt i xs = [] → xs = [] := by
  intro xs i h
  cases xs with
  | nil => rfl
  | cons a b => rw [enumFromInt] at h; cases h

mutual

theorem jdiff_refl : ∀ (v : JValue), wfJ v = true → ∀ (ig : List String) (node : List JKey),
    jdiff ig node v v = []
  | .null => by intro _ ig node; simp [jdiff]
  | .bool b => by intro _ ig node; simp [jdiff]
  | .num n => by intro _ ig node; simp [jdiff]
  | .str s => by intro _ ig node; simp [jdiff]
  | .arr xs => by
      intro hw ig node
      rw [wfJ] at hw
      rw [jdiff, jdiffZip_refl xs hw ig node 0]
      simp [List.drop_length, enumFromInt]
  | .obj f => by
      intro hw ig node
      obtain ⟨hnd, hwf⟩ := wfJ_obj_parts hw
      rw [jdiff]
      rw [jdiffInter_subset_refl f hwf f
        (fun p hp => by obtain ⟨k, v⟩ := p; exact lookupKey_of_mem_nodup hnd hp) ig node]
      have hflt : f.filter (fun p => (lookupKey p.1 f).isNone) = [] := by
        rw [List.filter_eq_nil_iff]
        intro p hp
        obtain ⟨k, v⟩ := p
        have hs := isSome_lookupKey_of_mem hp
        rcases hl : lookupKey k f with _ | w
        · rw [hl] at hs; cases hs
        · simp [hl]
      rw [hflt]
      simp

theorem jdiffInter_subset_refl : ∀ (f1 : List (JKey × JValue)), wfFields f1 = true →
    ∀ (f2 : List (JKey × JValue)), (∀ p ∈ f1, lookupKey p.1 f2 = some p.2) →
    ∀ (ig : List String) (node : List JKey), jdiffInter ig node f1 f2 = []
  | [] => by intro _ f2 _ ig node; rfl
  | (k, v) :: rest => by
      intro hw f2 hl ig node
      rw [wfFields, Bool.and_eq_true] at hw
      have hkv := hl (k, v) (List.mem_cons_self _ _)
      have hrest := jdiffInter_subset_refl rest hw.2 f2
        (fun p hp => hl p (List.mem_cons_of_mem _ hp)) ig node
      rw [jdiffInter]
      simp only [hkv, hrest, List.append_nil]
      by_cases hig : dottedIgnored ig (node ++ [k]) = true
      · simp [hig]
      · simp only [Bool.not_eq_true] at hig
        simp [hig, jdiff_refl v hw.1 ig (node ++ [k])]

theorem jdiffZip_refl : ∀ (xs : List JValue), wfList xs = true →
    ∀ (ig : List String) (node : List JKey) (i : Int), jdiffZip ig node i xs xs = []
  | [] => by intro _ ig node i; rfl
  | x :: rest => by
      intro hw ig node i
      rw [wfList, Bool.and_eq_true] at hw
      rw [jdiffZip, dottedIgnored_int]
      simp [jdiff_refl x hw.1 ig (node ++ [JKey.i i]), jdiffZip_refl rest hw.2 ig node (i + 1)]

end

theorem dotted_of_ignoredJKeys {k : JKey} (hk : k ∈ ignoredJKeys) :
    dottedIgnored ignoreList ([] ++ [k]) = true := by
  rcases List.mem_map.mp hk with ⟨str, hstr, rfl⟩
  show dottedIgnored ignoreList [JKey.s str] = true
  rw [dottedIgnored]
  simp [hstr]

theorem not_dotted_of_not_ignoredJKeys {k : JKey} (hk : k ∉ ignoredJKeys) :
    dottedIgnored ignoreList ([] ++ [k]) = false := by
  cases k with
  | i n => rfl
  | s str =>
    show dottedIgnored ignoreList [JKey.s str] = false
    rw [dottedIgnored]
    have hmem : str ∉ ignoreList := fun hm => hk (List.mem_map.mpr ⟨str, hm, rfl⟩)
    simp [hmem]

theorem jdiffInter_nil_cases : ∀ (f1 f2 : List (JKey × JValue)) (ig : List String)
    (node : List JKey), (∀ p ∈ f1, wfJ p.2 = true) →
    (∀ p ∈ f1, dottedIgnored ig (node ++ [p.1]) = true ∨ lookupKey p.1 f2 = some p.2) →
    jdiffInter ig node f1 f2 = [] := by
  intro f1
  induction f1 with
  | nil => intro f2 ig node _ _; rfl
  | cons q rest ih =>
    intro f2 ig node hwf hcase
    obtain ⟨k, v⟩ := q
    rw [jdiffInter]
    rw [ih f2 ig node (fun p hp => hwf p (List.mem_cons_of_mem _ hp))
      (fun p hp => hcase p (List.mem_cons_of_mem _ hp))]
    rw [List.append_nil]
    rcases hcase (k, v) (List.mem_cons_self _ _) with hig | hlk
    · rcases hl : lookupKey k f2 with _ | w
      · rfl
      · simp [hig]
    · simp only [hlk]
      by_cases hig : dottedIgnored ig (node ++ [k]) = true
      · simp [hig]
      · simp only [Bool.not_eq_true] at hig
        simp [hig, jdiff_refl v (hwf (k, v) (List.mem_cons_self _ _)) ig (node ++ [k])]

/-- Diff suppression core: two record objects whose lookups agree on every
non-ignored key produce an empty diff under the volatile-field ignore list. -/
theorem jdiff_agree_ignored (f1 f2 : List (JKey × JValue))
    (hw1 : wfJ (.obj f1) = true)
    (hagree : ∀ k ∈ f1.map Prod.fst ++ f2.map Prod.fst,
      k ∉ ignoredJKeys → lookupKey k f1 = lookupKey k f2) :
    jdiff ignoreList [] (.obj f1) (.obj f2) = [] := by
  obtain ⟨hnd, hwf⟩ := wfJ_obj_parts hw1
  rw [jdiff]
  have hinter : jdiffInter ignoreList [] f1 f2 = [] := by
    refine jdiffInter_nil_cases f1 f2 ignoreList [] (fun p hp => wfFields_mem hwf p hp) ?_
    intro p hp
    obtain ⟨k, v⟩ := p
    by_cases hk : k ∈ ignoredJKeys
    · exact Or.inl (dotted_of_ignoredJKeys hk)
    · refine Or.inr ?_
      rw [← hagree k (List.mem_append.mpr (Or.inl (List.mem_map.mpr ⟨(k, v), hp, rfl⟩))) hk]
      exact lookupKey_of_mem_nodup hnd hp
  have hadds : (f2.filter (fun p => (lookupKey p.1 f1).isNone)).filterMap
      (fun p => if dottedIgnored ignoreList ([] ++ [p.1]) then none
                else some (DiffOp.add [] p.1 p.2)) = [] := by
    rw [List.filterMap_eq_nil_iff]
    intro p hp
    rw [List.mem_filter] at hp
    obtain ⟨k, v⟩ := p
    have hk : k ∈ ignoredJKeys := by
      by_contra hk
      have h1 := hagree k
        (List.mem_append.mpr (Or.inr (List.mem_map.mpr ⟨(k, v), hp.1, rfl⟩))) hk
      have h2 := isSome_lookupKey_of_mem hp.1
      rw [← h1] at h2
      rcases hl : lookupKey k f1 with _ | w
      · rw [hl] at h2; cases h2
      · rw [hl] at hp
        simp at hp
    rw [if_pos (dotted_of_ignoredJKeys hk)]
  have hrems : (f1.filter (fun p => (lookupKey p.1 f2).isNone)).filterMap
      (fun p => if dottedIgnored ignoreList ([] ++ [p.1]) then none
                else some (DiffOp.remove [] p.1 p.2)) = [] := by
    rw [List.filterMap_eq_nil_iff]
    intro p hp
    rw [List.mem_filter] at hp
    obtain ⟨k, v⟩ := p
    have hk : k ∈ ignoredJKeys := by
      by_contra hk
      have h1 := hagree k
        (List.mem_append.mpr (Or.inl (List.mem_map.mpr ⟨(k, v), hp.1, rfl⟩))) hk
      have h2 := isSome_lookupKey_of_mem hp.1
      rw [h1] at h2
      rcases hl : lookupKey k f2 with _ | w
      · rw [hl] at h2; cases h2
      · rw [hl] at hp
        simp at hp
    rw [if_pos (dotted_of_ignoredJKeys hk)]
  rw [hinter, hadds, hrems]
  rfl

mutual

theorem jdiff_nil_jeq : ∀ (v : JValue), wfJ v = true → ∀ (w : JValue), wfJ w = true →
    ∀ (ig : List String) (node : List JKey), node ≠ [] → jdiff ig node v w = [] →
    jeq v w = true
  | .null => by
      intro _ w _ ig node _ h
      cases w with
      | null => rfl
      | bool b => exact List.noConfusion h
      | num n => exact List.noConfusion h
      | str t => exact List.noConfusion h
      | arr xs => exact List.noConfusion h
      | obj f => exact List.noConfusion h
  | .bool b => by
      intro _ w _ ig node _ h
      cases w with
      | bool c =>
        rw [show jdiff ig node (.bool b) (.bool c) =
          (if JValue.bool b = JValue.bool c then []
           else [.change node (.bool b) (.bool c)]) from rfl] at h
        by_cases he : JValue.bool b = JValue.bool c
        · rw [← he]; simp [jeq]
        · rw [if_neg he] at h; cases h
      | null => exact List.noConfusion h
      | num n => exact List.noConfusion h
      | str t => exact List.noConfusion h
      | arr xs => exact List.noConfusion h
      | obj f => exact List.noConfusion h
  | .num q => by
      intro _ w _ ig node _ h
      cases w with
      | num r =>
        rw [show jdiff ig node (.num q) (.num r) =
          (if JValue.num q = JValue.num r then []
           else [.change node (.num q) (.num r)]) from rfl] at h
        by_cases he : JValue.num q = JValue.num r
        · rw [← he]; simp [jeq]
        · rw [if_neg he] at h; cases h
      | null => exact List.noConfusion h
      | bool b => exact List.noConfusion h
      | str t => exact List.noConfusion h
      | arr xs => exact List.noConfusion h
      | obj f => exact List.noConfusion h
  | .str t1 => by
      intro _ w _ ig node _ h
      cases w with
      | str t2 =>
        rw [show jdiff ig node (.str t1) (.str t2) =
          (if JValue.str t1 = JValue.str t2 then []
           else [.change node (.str t1) (.str t2)]) from rfl] at h
        by_cases he : JValue.str t1 = JValue.str t2
        · rw [← he]; simp [jeq]
        · rw [if_neg he] at h; cases h
      | null => exact List.noConfusion h
      | bool b => exact List.noConfusion h
      | num n => exact List.noConfusion h
      | arr xs => exact List.noConfusion h
      | obj f => exact List.noConfusion h
  | .arr xs => by
      intro hwv w hww ig node hnode h
      cases w with
      | arr ys =>
        rw [jdiff] at h
        rcases List.append_eq_nil.mp h with ⟨h12, hrem⟩
        rcases List.append_eq_nil.mp h12 with ⟨hzip, hadd⟩
        rw [List.filterMap_eq_nil_iff] at hadd hrem
        have hys : ys.drop xs.length = [] := by
          cases hd : ys.drop xs.length with
          | nil => rfl
          | cons a tl =>
            exfalso
            have hm : ((xs.length : Int), a) ∈ enumFromInt (xs.length : Int) (ys.drop xs.length) := by
              rw [hd, enumFromInt]
              exact List.mem_cons_self _ _
            have hc := hadd _ hm
            simp [dottedIgnored_int] at hc
        have hxs : xs.drop ys.length = [] := by
          cases hd : xs.drop ys.length with
          | nil => rfl
          | cons a tl =>
            exfalso
            have hm : ((ys.length : Int), a) ∈
                (enumFromInt (ys.length : Int) (xs.drop ys.length)).reverse := by
              rw [hd, enumFromInt]
              exact List.mem_reverse.mpr (List.mem_cons_self _ _)
            have hc := hrem _ hm
            simp [dottedIgnored_int] at hc
        have hlen : xs.length = ys.length :=
          le_antisymm (List.drop_eq_nil_iff.mp hxs) (List.drop_eq_nil_iff.mp hys)
        rw [wfJ] at hwv hww
        rw [show jeq (.arr xs) (.arr ys) = jeqList xs ys from rfl]
        exact jdiffZip_nil_jeqList xs hwv ys hww hlen ig node 0 hnode hzip
      | null => exact List.noConfusion h
      | bool b => exact List.noConfusion h
      | num n => exact List.noConfusion h
      | str t => exact List.noConfusion h
      | obj f => exact List.noConfusion h
  | .obj f1 => by
      intro hwv w hww ig node hnode h
      cases w with
      | obj f2 =>
        rw [jdiff] at h
        rcases List.append_eq_nil.mp h with ⟨h12, hrem⟩
        rcases List.append_eq_nil.mp h12 with ⟨hinter, hadd⟩
        rw [List.filterMap_eq_nil_iff] at hadd hrem
        have hall : ∀ p ∈ f2, (lookupKey p.1 f1).isSome = true := by
          intro p hp
          rcases hl : lookupKey p.1 f1 with _ | v
          · exfalso
            have hm : p ∈ f2.filter (fun q => (lookupKey q.1 f1).isNone) :=
              List.mem_filter.mpr ⟨hp, by rw [hl]; rfl⟩
            have hc := hadd _ hm
            simp [dottedIgnored_append_ne hnode] at hc
          · rfl
        have hsome : ∀ p ∈ f1, (lookupKey p.1 f2).isSome = true := by
          intro p hp
          rcases hl : lookupKey p.1 f2 with _ | v
          · exfalso
            have hm : p ∈ f1.filter (fun q => (lookupKey q.1 f2).isNone) :=
              List.mem_filter.mpr ⟨hp, by rw [hl]; rfl⟩
            have hc := hrem _ hm
            simp [dottedIgnored_append_ne hnode] at hc
          · rfl
        rw [show jeq (.obj f1) (.obj f2) =
          (jeqSub f1 f2 && f2.all (fun p => (lookupKey p.1 f1).isSome)) from rfl]
        rw [Bool.and_eq_true]
        exact ⟨jdiffInter_nil_jeqSub f1 (wfJ_obj_parts hwv).2 f2 (wfJ_obj_parts hww).2
          ig node hnode hinter hsome, List.all_eq_true.mpr hall⟩
      | null => exact List.noConfusion h
      | bool b => exact List.noConfusion h
      | num n => exact List.noConfusion h
      | str t => exact List.noConfusion h
      | arr ys => exact List.noConfusion h

theorem jdiffInter_nil_jeqSub : ∀ (f1 : List (JKey × JValue)), wfFields f1 = true →
    ∀ (f2 : List (JKey × JValue)), wfFields f2 = true →
    ∀ (ig : List String) (node : List JKey), node ≠ [] →
    jdiffInter ig node f1 f2 = [] →
    (∀ p ∈ f1, (lookupKey p.1 f2).isSome = true) → jeqSub f1 f2 = true
  | [] => by intro _ f2 _ ig node _ _ _; rfl
  | (k, v) :: rest => by
      intro hw1 f2 hw2 ig node hnode h hsome
      rw [wfFields, Bool.and_eq_true] at hw1
      rw [jdiffInter] at h
      rcases List.append_eq_nil.mp h with ⟨hhead, htail⟩
      have hks := hsome (k, v) (List.mem_cons_self _ _)
      rcases hl : lookupKey k f2 with _ | w
      · rw [hl] at hks; cases hks
      · rw [hl] at hhead
        have hh : (if dottedIgnored ig (node ++ [k]) then ([] : List DiffOp)
            else jdiff ig (node ++ [k]) v w) = [] := hhead
        rw [dottedIgnored_append_ne hnode] at hh
        rw [if_neg Bool.false_ne_true] at hh
        have hjeq := jdiff_nil_jeq v hw1.1 w
          (wfFields_mem hw2 (k, w) (mem_of_lookupKey hl)) ig (node ++ [k]) (by simp) hh
        rw [jeqSub, hl, Bool.and_eq_true]
        exact ⟨hjeq, jdiffInter_nil_jeqSub rest hw1.2 f2 hw2 ig node hnode htail
          (fun p hp => hsome p (List.mem_cons_of_mem _ hp))⟩

theorem jdiffZip_nil_jeqList : ∀ (xs : List JValue), wfList xs = true →
    ∀ (ys : List JValue), wfList ys = true → xs.length = ys.length →
    ∀ (ig : List String) (node : List JKey) (i : Int), node ≠ [] →
    jdiffZip ig node i xs ys = [] → jeqList xs ys = true
  | [] => by
      intro _ ys _ hlen ig node i _ _
      cases ys with
      | nil => rfl
      | cons y tl => simp at hlen
  | x :: xs => by
      intro hw1 ys hw2 hlen ig node i hnode h
      cases ys with
      | nil => simp at hlen
      | cons y ys =>
        rw [wfList, Bool.and_eq_true] at hw1 hw2
        rw [jdiffZip] at h
        rcases List.append_eq_nil.mp h with ⟨hhead, htail⟩
        have hh : (if dottedIgnored ig (node ++ [JKey.i i]) then ([] : List DiffOp)
            else jdiff ig (node ++ [JKey.i i]) x y) = [] := hhead
        rw [dottedIgnored_int] at hh
        rw [if_neg Bool.false_ne_true] at hh
        have hx := jdiff_nil_jeq x hw1.1 y hw2.1 ig (node ++ [JKey.i i]) (by simp) hh
        rw [jeqList, Bool.and_eq_true]
        exact ⟨hx, jdiffZip_nil_jeqList xs hw1.2 ys hw2.2 (by simpa using hlen)
          ig node (i + 1) hnode htail⟩

end

mutual

theorem jdiff_path_rooted : ∀ (v w : JValue) (ig : List String) (node : List JKey)
    (e : DiffOp), e ∈ jdiff ig node v w → node <+: e.path
  | .null => by
      intro w ig node e he
      have hd : jdiff ig node .null w =
          if JValue.null = w then [] else [.change node .null w] := by cases w <;> rfl
      rw [hd] at he
      by_cases hc : JValue.null = w
      · rw [if_pos hc] at he; cases he
      · rw [if_neg hc, List.mem_singleton] at he
        rw [he]
        exact List.prefix_refl _
  | .bool b => by
      intro w ig node e he
      have hd : jdiff ig node (.bool b) w =
          if JValue.bool b = w then [] else [.change node (.bool b) w] := by cases w <;> rfl
      rw [hd] at he
      by_cases hc : JValue.bool b = w
      · rw [if_pos hc] at he; cases he
      · rw [if_neg hc, List.mem_singleton] at he
        rw [he]
        exact List.prefix_refl _
  | .num q => by
      intro w ig node e he
      have hd : jdiff ig node (.num q) w =
          if JValue.num q = w then [] else [.change node (.num q) w] := by cases w <;> rfl
      rw [hd] at he
      by_cases hc : JValue.num q = w
      · rw [if_pos hc] at he; cases he
      · rw [if_neg hc, List.mem_singleton] at he
        rw [he]
        exact List.prefix_refl _
  | .str t => by
      intro w ig node e he
      have hd : jdiff ig node (.str t) w =
          if JValue.str t = w then [] else [.change node (.str t) w] := by cases w <;> rfl
      rw [hd] at he
      by_cases hc : JValue.str t = w
      · rw [if_pos hc] at he; cases he
      · rw [if_neg hc, List.mem_singleton] at he
        rw [he]
        exact List.prefix_refl _
  | .arr xs => by
      intro w ig node e he
      cases w with
      | arr ys =>
        rw [jdiff] at he
        rcases List.mem_append.mp he with he1 | he2
        · rcases List.mem_append.mp he1 with hez | hea
          · exact jdiffZip_path_rooted xs ys ig node 0 e hez
          · rcases List.mem_filterMap.mp hea with ⟨p, _, hpe⟩
            by_cases hig : dottedIgnored ig (node ++ [JKey.i p.1]) = true
            · rw [if_pos hig] at hpe; cases hpe
            · rw [if_neg hig] at hpe
              injection hpe with hpe
              rw [← hpe]
              exact List.prefix_refl _
        · rcases List.mem_filterMap.mp he2 with ⟨p, _, hpe⟩
          by_cases hig : dottedIgnored ig (node ++ [JKey.i p.1]) = true
          · rw [if_pos hig] at hpe; cases hpe
          · rw [if_neg hig] at hpe
            injection hpe with hpe
            rw [← hpe]
            exact List.prefix_refl _
      | null =>
        rw [show jdiff ig node (.arr xs) JValue.null =
          [.change node (.arr xs) .null] from rfl, List.mem_singleton] at he
        rw [he]; exact List.prefix_refl _
      | bool b =>
        rw [show jdiff ig node (.arr xs) (JValue.bool b) =
          [.change node (.arr xs) (.bool b)] from rfl, List.mem_singleton] at he
        rw [he]; exact List.prefix_refl _
      | num n =>
        rw [show jdiff ig node (.arr xs) (JValue.num n) =
          [.change node (.arr xs) (.num n)] from rfl, List.mem_singleton] at he
        rw [he]; exact List.prefix_refl _
      | str t =>
        rw [show jdiff ig node (.arr xs) (JValue.str t) =
          [.change node (.arr xs) (.str t)] from rfl, List.mem_singleton] at he
        rw [he]; exact List.prefix_refl _
      | obj f =>
        rw [show jdiff ig node (.arr xs) (JValue.obj f) =
          [.change node (.arr xs) (.obj f)] from rfl, List.mem_singleton] at he
        rw [he]; exact List.prefix_refl _
  | .obj f1 => by
      intro w ig node e he
      cases w with
      | obj f2 =>
        rw [jdiff] at he
        rcases List.mem_append.mp he with he1 | he2
        · rcases List.mem_append.mp he1 with hei | hea
          · exact jdiffInter_path_rooted f1 f2 ig node e hei
          · rcases List.mem_filterMap.mp hea with ⟨p, _, hpe⟩
            by_cases hig : dottedIgnored ig (node ++ [p.1]) = true
            · rw [if_pos hig] at hpe; cases hpe
            · rw [if_neg hig] at hpe
              injection hpe with hpe
              rw [← hpe]
              exact List.prefix_refl _
        · rcases List.mem_filterMap.mp he2 with ⟨p, _, hpe⟩
          by_cases hig : dottedIgnored ig (node ++ [p.1]) = true
          · rw [if_pos hig] at hpe; cases hpe
          · rw [if_neg hig] at hpe
            injection hpe with hpe
            rw [← hpe]
            exact List.prefix_refl _
      | null =>
        rw [show jdiff ig node (.obj f1) JValue.null =
          [.change node (.obj f1) .null] from rfl, List.mem_singleton] at he
        rw [he]; exact List.prefix_refl _
      | bool b =>
        rw [show jdiff ig node (.obj f1) (JValue.bool b) =
          [.change node (.obj f1) (.bool b)] from rfl, List.mem_singleton] at he
        rw [he]; exact List.prefix_refl _
      | num n =>
        rw [show jdiff ig node (.obj f1) (JValue.num n) =
          [.change node (.obj f1) (.num n)] from rfl, List.mem_singleton] at he
        rw [he]; exact List.prefix_refl _
      | str t =>
        rw [show jdiff ig node (.obj f1) (JValue.str t) =
          [.change node (.obj f1) (.str t)] from rfl, List.mem_singleton] at he
        rw [he]; exact List.prefix_refl _
      | arr ys =>
        rw [show jdiff ig node (.obj f1) (JValue.arr ys) =
          [.change node (.obj f1) (.arr ys)] from rfl, List.mem_singleton] at he
        rw [he]; exact List.prefix_refl _

theorem jdiffInter_path_rooted : ∀ (f1 f2 : List (JKey × JValue)) (ig : List String)
    (node : List JKey) (e : DiffOp), e ∈ jdiffInter ig node f1 f2 → node <+: e.path
  | [] => by intro f2 ig node e he; cases he
  | (k, v) :: rest => by
      intro f2 ig node e he
      rw [jdiffInter] at he
      rcases List.mem_append.mp he with he1 | he2
      · rcases hl : lookupKey k f2 with _ | w
        · rw [hl] at he1
          cases he1
        · rw [hl] at he1
          have he1' : e ∈ (if dottedIgnored ig (node ++ [k]) then ([] : List DiffOp)
              else jdiff ig (node ++ [k]) v w) := he1
          by_cases hig : dottedIgnored ig (node ++ [k]) = true
          · rw [if_pos hig] at he1'; cases he1'
          · rw [if_neg hig] at he1'
            exact (List.prefix_append node [k]).trans
              (jdiff_path_rooted v w ig (node ++ [k]) e he1')
      · exact jdiffInter_path_rooted rest f2 ig node e he2

theorem jdiffZip_path_rooted : ∀ (xs ys : List JValue) (ig : List String)
    (node : List JKey) (i : Int) (e : DiffOp), e ∈ jdiffZip ig node i xs ys → node <+: e.path
  | [] => by
      intro ys ig node i e he
      rw [show jdiffZip ig node i [] ys = [] from rfl] at he
      cases he
  | x :: xs => by
      intro ys ig node i e he
      cases ys with
      | nil =>
        rw [show jdiffZip ig node i (x :: xs) [] = [] from rfl] at he
        cases he
      | cons y ys =>
        rw [jdiffZip] at he
        rcases List.mem_append.mp he with he1 | he2
        · by_cases hig : dottedIgnored ig (node ++ [JKey.i i]) = true
          · rw [if_pos hig] at he1; cases he1
          · rw [if_neg hig] at he1
            exact (List.prefix_append node [JKey.i i]).trans
              (jdiff_path_rooted x y ig (node ++ [JKey.i i]) e he1)
        · exact jdiffZip_path_rooted xs ys ig node (i + 1) e he2

end

theorem jdiffInter_mem_sub : ∀ (f1 f2 : List (JKey × JValue)) (ig : List String)
    (node : List JKey) (k : JKey) (v w : JValue), (k, v) ∈ f1 →
    lookupKey k f2 = some w → dottedIgnored ig (node ++ [k]) = false →
    ∀ e ∈ jdiff ig (node ++ [k]) v w, e ∈ jdiffInter ig node f1 f2 := by
  intro f1
  induction f1 with
  | nil => intro f2 ig node k v w hm; cases hm
  | cons q rest ih =>
    intro f2 ig node k v w hm hl hig e he
    obtain ⟨k1, v1⟩ := q
    rw [jdiffInter]
    rcases List.mem_cons.mp hm with heq | hmr
    · injection heq with h1 h2
      subst h1
      subst h2
      refine List.mem_append.mpr (Or.inl ?_)
      rw [hl]
      show e ∈ (if dottedIgnored ig (node ++ [k]) then ([] : List DiffOp)
        else jdiff ig (node ++ [k]) v w)
      rw [hig, if_neg Bool.false_ne_true]
      exact he
    · exact List.mem_append.mpr (Or.inr (ih f2 ig node k v w hmr hl hig e he))

theorem namesField_of_path_cons (k : String) (e : DiffOp) (t : List JKey)
    (hp : e.path = JKey.s k :: t) : namesField k e = true := by
  cases e with
  | change p a b =>
    rw [DiffOp.path] at hp
    subst hp
    simp [namesField]
  | add p key val =>
    rw [DiffOp.path] at hp
    subst hp
    simp [namesField]
  | remove p key val =>
    rw [DiffOp.path] at hp
    subst hp
    simp [namesField]

/-- C5: for a cached record with an existing (truthy) prior value, an update
whose only differences from the cached value lie in the ignored volatile fields
(version, last_edited_time, last_edited_by) fires no registered callback; an
update changing any other field fires exactly one callback per registration,
each receiving a diff that names that field; and no callback fires when there
was no prior cached value. -/
theorem claim_C5_diff_suppression (s : RecordStore) (table id : String)
    (f1 f2 : List (JKey × JValue))
    (hstored : s.getValue table id = some (.obj f1))
    (hw1 : wfJ (.obj f1) = true) (hw2 : wfJ (.obj f2) = true)
    (hne1 : f1 ≠ []) (hne2 : f2 ≠ []) :
    ((∀ k ∈ f1.map Prod.fst ++ f2.map Prod.fst,
        k ∉ ignoredJKeys → lookupKey k f1 = lookupKey k f2) →
      (s.update_record table id (some (.obj f2)) none).2 = [])
    ∧ (∀ k : String, JKey.s k ∉ ignoredJKeys → jeqAtKey f1 f2 (JKey.s k) = false →
        (s.update_record table id (some (.obj f2)) none).2 =
          (s.getCallbacks table id).map (fun cb =>
            ⟨table, id, cb.callback_id, jdiff ignoreList [] (.obj f1) (.obj f2),
             .obj f1, .obj f2⟩)
        ∧ ∃ e ∈ jdiff ignoreList [] (.obj f1) (.obj f2), namesField k e = true)
    ∧ (∀ s0 : RecordStore, s0.getValue table id = none →
        (s0.update_record table id (some (.obj f2)) none).2 = []) := by
  have htr2 : jTruthy (.obj f2) = true := by
    rw [jTruthy]
    cases f2 with
    | nil => exact absurd rfl hne2
    | cons a b => rfl
  have htr1 : jTruthy (.obj f1) = true := by
    rw [jTruthy]
    cases f1 with
    | nil => exact absurd rfl hne1
    | cons a b => rfl
  have hred : s.update_record table id (some (.obj f2)) none =
      (if jTruthy (.obj f2) then
        (s.setValue table id (.obj f2),
         if jTruthy ((s.getValue table id).getD (.obj [])) &&
            !(jdiff ignoreList [] ((s.getValue table id).getD (.obj [])) (.obj f2)).isEmpty then
           (s.setValue table id (.obj f2)).trigger_callbacks table id
             (jdiff ignoreList [] ((s.getValue table id).getD (.obj [])) (.obj f2))
             ((s.getValue table id).getD (.obj [])) (.obj f2)
         else []
        )
       else (s, [])) := rfl
  rw [hstored] at hred
  simp only [Option.getD_some] at hred
  rw [if_pos htr2] at hred
  refine ⟨?_, ?_, ?_⟩
  · intro hagree
    have hd0 : jdiff ignoreList [] (.obj f1) (.obj f2) = [] :=
      jdiff_agree_ignored f1 f2 hw1 hagree
    rw [hred, hd0]
    simp
  · intro k hk hdiff
    have hnig : dottedIgnored ignoreList ([] ++ [JKey.s k]) = false :=
      not_dotted_of_not_ignoredJKeys hk
    have hex : ∃ e ∈ jdiff ignoreList [] (.obj f1) (.obj f2), namesField k e = true := by
      rw [jeqAtKey] at hdiff
      rcases hl1 : lookupKey (JKey.s k) f1 with _ | v
      · rcases hl2 : lookupKey (JKey.s k) f2 with _ | w
        · rw [hl1, hl2] at hdiff
          cases hdiff
        · refine ⟨.add [] (JKey.s k) w, ?_, by simp [namesField]⟩
          rw [jdiff]
          refine List.mem_append.mpr (Or.inl (List.mem_append.mpr (Or.inr ?_)))
          refine List.mem_filterMap.mpr ⟨(JKey.s k, w), ?_, ?_⟩
          · exact List.mem_filter.mpr ⟨mem_of_lookupKey hl2, by rw [hl1]; rfl⟩
          · show (if dottedIgnored ignoreList ([] ++ [JKey.s k]) then none
              else some (DiffOp.add [] (JKey.s k) w)) = some (DiffOp.add [] (JKey.s k) w)
            rw [hnig, if_neg Bool.false_ne_true]
      · rcases hl2 : lookupKey (JKey.s k) f2 with _ | w
        · refine ⟨.remove [] (JKey.s k) v, ?_, by simp [namesField]⟩
          rw [jdiff]
          refine List.mem_append.mpr (Or.inr ?_)
          refine List.mem_filterMap.mpr ⟨(JKey.s k, v), ?_, ?_⟩
          · exact List.mem_filter.mpr ⟨mem_of_lookupKey hl1, by rw [hl2]; rfl⟩
          · show (if dottedIgnored ignoreList ([] ++ [JKey.s k]) then none
              else some (DiffOp.remove [] (JKey.s k) v)) = some (DiffOp.remove [] (JKey.s k) v)
            rw [hnig, if_neg Bool.false_ne_true]
        · rw [hl1, hl2] at hdiff
          have hdiff2 : jeq v w = false := hdiff
          have hvw : jdiff ignoreList [JKey.s k] v w ≠ [] := by
            intro hnil
            have hj := jdiff_nil_jeq v (wfJ_of_lookupKey hw1 hl1) w (wfJ_of_lookupKey hw2 hl2)
              ignoreList [JKey.s k] (by simp) hnil
            rw [hj] at hdiff2
            cases hdiff2
          rcases List.exists_mem_of_ne_nil _ hvw with ⟨e, he⟩
          have hmem : e ∈ jdiffInter ignoreList [] f1 f2 :=
            jdiffInter_mem_sub f1 f2 ignoreList [] (JKey.s k) v w
              (mem_of_lookupKey hl1) hl2 hnig e he
          rcases jdiff_path_rooted v w ignoreList [JKey.s k] e he with ⟨t, ht⟩
          refine ⟨e, ?_, namesField_of_path_cons k e t (by rw [← ht]; rfl)⟩
          rw [jdiff]
          exact List.mem_append.mpr (Or.inl (List.mem_append.mpr (Or.inl hmem)))
    have hdvne : jdiff ignoreList [] (.obj f1) (.obj f2) ≠ [] := by
      rcases hex with ⟨e, he, _⟩
      exact List.ne_nil_of_mem he
    refine ⟨?_, hex⟩
    rw [hred]
    have hcond : (jTruthy (.obj f1) &&
        !(jdiff ignoreList [] (.obj f1) (.obj f2)).isEmpty) = true := by
      rw [htr1, Bool.true_and]
      cases hdl : jdiff ignoreList [] (.obj f1) (.obj f2) with
      | nil => exact absurd hdl hdvne
      | cons a tl => rfl
    rw [if_pos hcond]
    rw [RecordStore.trigger_callbacks, getCallbacks_setValue]
  · intro s0 h0
    have hred0 : s0.update_record table id (some (.obj f2)) none =
        (if jTruthy (.obj f2) then
          (s0.setValue table id (.obj f2),
           if jTruthy ((s0.getValue table id).getD (.obj [])) &&
              !(jdiff ignoreList [] ((s0.getValue table id).getD (.obj [])) (.obj f2)).isEmpty then
             (s0.setValue table id (.obj f2)).trigger_callbacks table id
               (jdiff ignoreList [] ((s0.getValue table id).getD (.obj [])) (.obj f2))
               ((s0.getValue table id).getD (.obj [])) (.obj f2)
           else []
          )
         else (s0, [])) := rfl
    rw [hred0, if_pos htr2, h0]
    simp [jTruthy]

theorem claim_C5_witness :
    (c5_store.update_record "block" "b1" (some (.obj c5_f2V)) none).2 = [] ∧
    ((c5_store.update_record "block" "b1" (some (.obj c5_f2T)) none).2 =
        (c5_store.getCallbacks "block" "b1").map (fun cb =>
          ⟨"block", "b1", cb.callback_id, jdiff ignoreList [] (.obj c5_f1) (.obj c5_f2T),
           .obj c5_f1, .obj c5_f2T⟩)
      ∧ ∃ e ∈ jdiff ignoreList [] (.obj c5_f1) (.obj c5_f2T), namesField "title" e = true) ∧
    (emptyRecordStore.update_record "block" "b1" (some (.obj c5_f2T)) none).2 = [] := by
  have hV := claim_C5_diff_suppression c5_store "block" "b1" c5_f1 c5_f2V (by decide)
    (by decide) (by decide) (by decide) (by decide)
  have hT := claim_C5_diff_suppression c5_store "block" "b1" c5_f1 c5_f2T (by decide)
    (by decide) (by decide) (by decide) (by decide)
  exact ⟨hV.1 (by decide), hT.2.1 "title" (by decide) (by decide),
    hT.2.2 emptyRecordStore (by decide)⟩

theorem claim_C1_witness :
    (submit_transaction c1_client c1_net "u" 0 [c1_op] true).err = some .httpError ∧
    (submit_transaction c1_client c1_net "u" 0 [c1_op] true).client.store = c1_client.store ∧
    (submit_transaction c1_client c1_net "u" 0 [c1_op] true).fired = [] := by
  have h := claim_C1_atomic_send_failure c1_client c1_net "u" 0 [c1_op] true rfl
    (by decide) rfl
  exact ⟨h.1, h.2.1, h.2.2.1⟩

end NotionPy
